import Mathlib

/-!
Session lifecycle and packet forwarding of teamspeak-go-proxy.

A shallow embedding of `main.go`: the session table (`sync.Map`), the
session objects it points to, the per-session upstream sockets, the
reader goroutine of every session and the periodic sweep.  Goroutines are
interleaved at their blocking points: one datagram handled by
`handleClientPacket`, the `select` of `runSessionServerReader`, the
completion of its blocking `ReadFromUDP`, and one sweep of
`cleanupSessions` are the atomic steps.  What the operating system decides
(whether a socket can be allocated, whether a write succeeds, what a read
returns, what time it is) is an explicit input of each step.
-/

namespace TsProxy

/-- One octet of a datagram. -/
abbrev Byte := Fin 256

/-- The part of `net.UDPAddr` that identifies a peer. -/
structure UDPAddr where
  IP : Nat
  Port : Nat
deriving DecidableEq, Repr

/-- The key type of the session table. `(*net.UDPAddr).String()` renders the
address as the text `ip:port`; that text names exactly the pair of IP and
port, so the pair stands for it. -/
abbrev Key := Nat × Nat

/-- The key of an address, `clientAddr.String()`. -/
def UDPAddr.String (a : UDPAddr) : Key := (a.IP, a.Port)

/-- The `session` struct. `serverConn` is the handle of the upstream socket,
`lastActive` a time in nanoseconds, `closeChan` is `true` once the channel
has been closed. The mutex is not represented: steps are atomic. -/
structure session where
  serverConn : Nat
  clientAddr : UDPAddr
  lastActive : Int
  closeChan : Bool
deriving DecidableEq, Repr

/-- Where the reader goroutine of a session stands. -/
inductive PumpPC where
  | atSelect
  | inRead
  | done
deriving DecidableEq, Repr

/-- A write that was attempted on a socket, with its outcome. -/
inductive Packet where
  | toServer (conn : Nat) (dst : UDPAddr) (data : List Byte) (ok : Bool)
  | toClient (dst : UDPAddr) (data : List Byte) (ok : Bool)
deriving DecidableEq, Repr

/-- What a `ReadFromUDP` with a deadline returns. -/
inductive ReadResult where
  | timeout
  | error
  | data (payload : List Byte)
deriving DecidableEq, Repr

/-- The whole process state. `sessions` is the `sync.Map` (key to session
pointer), `heap` the allocated session objects by pointer, `closes` counts
the `Close()` calls made on every upstream socket (0 means open), `pump`
is the program counter of every reader goroutine, `panicked` records a
runtime panic (the process is gone), `out` is the list of attempted
writes, `buffer` the read buffer of `main` and `pumpBuf` the read buffer of
every reader goroutine. -/
structure World where
  sessions : List (Key × Nat)
  heap : Nat → session
  nextPtr : Nat
  closes : Nat → Nat
  nextConn : Nat
  pump : Nat → PumpPC
  panicked : Bool
  out : List Packet
  buffer : List Byte
  pumpBuf : Nat → List Byte

/-- Pointwise update of a function on `Nat`. -/
def setAt {α : Type} (f : Nat → α) (i : Nat) (v : α) : Nat → α :=
  fun j => if j = i then v else f j

/-- A new read buffer, `make([]byte, 1500)`. -/
def freshBuffer : List Byte := List.replicate 1500 0

/-- The state in which `main` enters its loop: empty table, nothing
allocated. -/
def init : World where
  sessions := []
  heap := fun _ => ⟨0, ⟨0, 0⟩, 0, false⟩
  nextPtr := 0
  closes := fun _ => 0
  nextConn := 0
  pump := fun _ => PumpPC.done
  panicked := false
  out := []
  buffer := freshBuffer
  pumpBuf := fun _ => freshBuffer

/-! ## sync.Map -/

/-- The lookup `sessions.Load(key)`. -/
def Load (key : Key) : List (Key × Nat) → Option Nat
  | [] => none
  | (k, v) :: t => if k = key then some v else Load key t

/-- The removal `sessions.Delete(key)`. -/
def Delete (key : Key) (t : List (Key × Nat)) : List (Key × Nat) :=
  t.filter (fun e => decide (e.1 ≠ key))

/-- The insertion `sessions.Store(key, value)`, replacing what the key held. -/
def Store (key : Key) (v : Nat) (t : List (Key × Nat)) : List (Key × Nat) :=
  (key, v) :: Delete key t

/-! ## time -/

/-- The idle threshold `5 * time.Minute`, in nanoseconds. -/
def fiveMinutes : Int := 300000000000

/-- Largest `time.Duration`. -/
def maxDuration : Int := 9223372036854775807

/-- Smallest `time.Duration`. -/
def minDuration : Int := -9223372036854775808

/-- The duration `time.Since(t)` read at time `now`: the difference, saturated to the
range of `time.Duration`. -/
def Since (now t : Int) : Int :=
  max minDuration (min maxDuration (now - t))

/-- The idle test `time.Since(s.lastActive) > 5*time.Minute`. -/
def inactive (now : Int) (s : session) : Bool :=
  decide (Since now s.lastActive > fiveMinutes)

/-! ## sockets and channels -/

/-- The effect of `ReadFromUDP(buffer)` on a datagram: the number of bytes stored and the
buffer afterwards. A datagram longer than the buffer is cut. -/
def readInto (buffer datagram : List Byte) : Nat × List Byte :=
  let n := min datagram.length buffer.length
  (n, datagram.take n ++ buffer.drop n)

/-- The statement `close(s.closeChan)`: closing a closed channel panics. -/
def closeChannel (p : Nat) (σ : World) : World :=
  if (σ.heap p).closeChan then { σ with panicked := true }
  else { σ with heap := setAt σ.heap p { σ.heap p with closeChan := true } }

/-- The call `conn.Close()` on upstream socket `c`. -/
def connClose (c : Nat) (σ : World) : World :=
  { σ with closes := setAt σ.closes c (σ.closes c + 1) }

/-- Outcome of `conn.WriteToUDP`: it fails on a closed socket, otherwise
the operating system decides. -/
def writeResult (σ : World) (c : Nat) (osOk : Bool) : Bool :=
  osOk && decide (σ.closes c = 0)

/-- Outcome of `conn.ReadFromUDP`: an error on a closed socket, otherwise
what the operating system delivers. -/
def readResult (σ : World) (c : Nat) (r : ReadResult) : ReadResult :=
  if σ.closes c = 0 then r else ReadResult.error

/-! ## main loop -/

/-- One iteration of the loop of `main` on an arriving datagram: read it
into the shared buffer and copy the bytes read into a new slice. Returns
the copy and the state with the buffer overwritten. -/
def mainRecv (datagram : List Byte) (σ : World) : List Byte × World :=
  let r := readInto σ.buffer datagram
  (r.2.take r.1, { σ with buffer := r.2 })

/-! ## handleClientPacket -/

/-- Lines 96-104: allocate the session object for socket `c`, store it
under `key` and start its reader goroutine. -/
def newSession (c : Nat) (clientAddr : UDPAddr) (now : Int) (σ : World) : World :=
  let p := σ.nextPtr
  { σ with
    heap := setAt σ.heap p ⟨c, clientAddr, now, false⟩
    nextPtr := p + 1
    sessions := Store clientAddr.String p σ.sessions
    pump := setAt σ.pump p PumpPC.atSelect
    pumpBuf := setAt σ.pumpBuf p freshBuffer }

/-- The call `net.ListenUDP("udp", nil)`: on success a new open socket. -/
def ListenUDP (osOk : Bool) (σ : World) : Option (Nat × World) :=
  if osOk then
    some (σ.nextConn,
      { σ with nextConn := σ.nextConn + 1, closes := setAt σ.closes σ.nextConn 0 })
  else none

/-- The assignment `s.lastActive = time.Now()` under the session lock. -/
def stamp (p : Nat) (now : Int) (σ : World) : World :=
  { σ with heap := setAt σ.heap p { σ.heap p with lastActive := now } }

/-- Record an attempted write. -/
def emit (pk : Packet) (σ : World) : World :=
  { σ with out := σ.out ++ [pk] }

/-- The removal `sessions.Delete(key)` on the process state. -/
def tableDelete (key : Key) (σ : World) : World :=
  { σ with sessions := Delete key σ.sessions }

/-- Move the reader goroutine of session `p` to `pc`. -/
def setPump (p : Nat) (pc : PumpPC) (σ : World) : World :=
  { σ with pump := setAt σ.pump p pc }

/-- Lines 109-120: stamp the session, write the datagram to its upstream
socket, and tear the session down when the write fails. -/
def forward (p : Nat) (data : List Byte) (clientAddr serverAddr : UDPAddr)
    (writeOk : Bool) (now : Int) (σ : World) : World :=
  let σ1 := stamp p now σ
  let c := (σ1.heap p).serverConn
  let ok := writeResult σ1 c writeOk
  let σ2 := emit (Packet.toServer c serverAddr data ok) σ1
  if ok then σ2
  else closeChannel p (connClose c (tableDelete clientAddr.String σ2))

/-- Lines 90-104 when `ListenUDP` succeeds: the new socket, the new session
stored under the key, its reader goroutine started. -/
def created (clientAddr : UDPAddr) (now : Int) (σ : World) : World :=
  newSession σ.nextConn clientAddr now
    { σ with nextConn := σ.nextConn + 1, closes := setAt σ.closes σ.nextConn 0 }

/-- The body of `handleClientPacket` after `sessions.Load(key)` has
returned `raw`. -/
def afterLoad (raw : Option Nat) (data : List Byte) (clientAddr serverAddr : UDPAddr)
    (listenOk writeOk : Bool) (now : Int) (σ : World) : World :=
  match raw with
  | some p => forward p data clientAddr serverAddr writeOk now σ
  | none =>
    match ListenUDP listenOk σ with
    | none => σ
    | some (c, σ1) =>
      forward σ1.nextPtr data clientAddr serverAddr writeOk now
        (newSession c clientAddr now σ1)

/-- The function `handleClientPacket`, run without interruption: the load of
the key followed by the rest of the body. The clock is read once per call. -/
def handleClientPacket (data : List Byte) (clientAddr serverAddr : UDPAddr)
    (listenOk writeOk : Bool) (now : Int) (σ : World) : World :=
  afterLoad (Load clientAddr.String σ.sessions) data clientAddr serverAddr
    listenOk writeOk now σ

/-- The session a datagram from `clientAddr` resolves to in `σ`: the one
stored under its key, else the one that will be allocated next. -/
def resolve (clientAddr : UDPAddr) (σ : World) : Nat :=
  (Load clientAddr.String σ.sessions).getD σ.nextPtr

/-! ## runSessionServerReader -/

/-- Return from `runSessionServerReader`: the deferred calls run last
registered first, `close(s.closeChan)` and then `s.serverConn.Close()`
(which still runs when the first one panics). -/
def pumpExit (p : Nat) (σ : World) : World :=
  let σ1 := closeChannel p σ
  setPump p PumpPC.done (connClose (σ1.heap p).serverConn σ1)

/-- The `select` at the head of the loop: return when `closeChan` is
closed, otherwise set the deadline and block in `ReadFromUDP`. -/
def pumpSelect (p : Nat) (σ : World) : World :=
  if (σ.heap p).closeChan then pumpExit p σ
  else setPump p PumpPC.inRead σ

/-- The read of the reader goroutine into its own buffer. -/
def pumpRecv (p : Nat) (payload : List Byte) (σ : World) : List Byte × World :=
  let rd := readInto (σ.pumpBuf p) payload
  (rd.2.take rd.1, { σ with pumpBuf := setAt σ.pumpBuf p rd.2 })

/-- The loop body from the return of `ReadFromUDP` on: `r` is what the
operating system delivers, `writeOk` whether the write to the public
socket succeeds, `now` the time. -/
def pumpRead (p : Nat) (r : ReadResult) (writeOk : Bool) (now : Int) (σ : World) : World :=
  let s := σ.heap p
  match readResult σ s.serverConn r with
  | ReadResult.timeout =>
    if inactive now s then pumpExit p (tableDelete s.clientAddr.String σ)
    else setPump p PumpPC.atSelect σ
  | ReadResult.error => pumpExit p (tableDelete s.clientAddr.String σ)
  | ReadResult.data payload =>
    let rd := pumpRecv p payload σ
    let σ1 := emit (Packet.toClient s.clientAddr rd.1 writeOk) rd.2
    if writeOk then setPump p PumpPC.atSelect (stamp p now σ1)
    else pumpExit p (tableDelete s.clientAddr.String σ1)

/-- The function `runSessionServerReader` for session `p`, run on its own
from the head of its loop: every element of the list is what one blocking
read returns, whether the write to the public socket succeeds, and the
time then. The loop ends when the goroutine has returned or the inputs are
used up. -/
def runSessionServerReader (p : Nat) : List (ReadResult × Bool × Int) → World → World
  | [], σ => σ
  | (r, w, now) :: rest, σ =>
    let σ1 := pumpSelect p σ
    if σ1.pump p = PumpPC.done then σ1
    else
      let σ2 := pumpRead p r w now σ1
      if σ2.pump p = PumpPC.done then σ2 else runSessionServerReader p rest σ2

/-! ## cleanupSessions -/

/-- The callback of `sessions.Range` on one entry. A panic ends the
process, so nothing happens after one. -/
def reapEntry (now : Int) (σ : World) (e : Key × Nat) : World :=
  if σ.panicked then σ
  else if inactive now (σ.heap e.2) then closeChannel e.2 (tableDelete e.1 σ)
  else σ

/-- One sweep of `cleanupSessions` at time `now`: `Range` over the entries
the table holds when the sweep starts. -/
def cleanupSessions (now : Int) (σ : World) : World :=
  σ.sessions.foldl (reapEntry now) σ

/-! ## interleaving -/

/-- The atomic steps of the process. -/
inductive Action where
  | packet (datagram : List Byte) (clientAddr : UDPAddr) (listenOk writeOk : Bool) (now : Int)
  | select (p : Nat)
  | read (p : Nat) (r : ReadResult) (writeOk : Bool) (now : Int)
  | tick (now : Int)

/-- One step. A step that is not enabled (the process has panicked, or the
reader goroutine is not at that point) leaves the state as it is. -/
def step (serverAddr : UDPAddr) (σ : World) : Action → World
  | Action.packet d a l w now =>
    if σ.panicked then σ
    else
      let r := mainRecv d σ
      handleClientPacket r.1 a serverAddr l w now r.2
  | Action.select p =>
    if σ.panicked then σ
    else if σ.pump p = PumpPC.atSelect then pumpSelect p σ else σ
  | Action.read p r w now =>
    if σ.panicked then σ
    else if σ.pump p = PumpPC.inRead then pumpRead p r w now σ else σ
  | Action.tick now =>
    if σ.panicked then σ else cleanupSessions now σ

/-- Run a schedule from a state. -/
def run (serverAddr : UDPAddr) (σ : World) (acts : List Action) : World :=
  acts.foldl (step serverAddr) σ

/-- The states reached from the initial state by a schedule of atomic
steps. -/
def Reachable (serverAddr : UDPAddr) (σ : World) : Prop :=
  ∃ acts : List Action, run serverAddr init acts = σ

/-- The invariant of the reachable states. -/
structure Inv (σ : World) : Prop where
  nodup : (σ.sessions.map Prod.fst).Nodup
  stored : ∀ k p, (k, p) ∈ σ.sessions →
    p < σ.nextPtr ∧ (σ.heap p).clientAddr.String = k ∧ (σ.heap p).closeChan = false
  connLt : ∀ p, p < σ.nextPtr → (σ.heap p).serverConn < σ.nextConn
  connInj : ∀ p q, p < σ.nextPtr → q < σ.nextPtr →
    (σ.heap p).serverConn = (σ.heap q).serverConn → p = q
  pumpLt : ∀ p, σ.pump p ≠ PumpPC.done → p < σ.nextPtr
  bufLen : σ.buffer.length = 1500
  pumpBufLen : ∀ p, (σ.pumpBuf p).length = 1500
  connOpen : ∀ k p, (k, p) ∈ σ.sessions → σ.closes (σ.heap p).serverConn = 0

/-- What a sweep over the entries `l` at time `now` turns `σ` into. -/
structure SweepSpec (now : Int) (l : List (Key × Nat)) (σ τ : World) : Prop where
  alive : τ.panicked = false
  conn : ∀ q, (τ.heap q).serverConn = (σ.heap q).serverConn
  addr : ∀ q, (τ.heap q).clientAddr = (σ.heap q).clientAddr
  last : ∀ q, (τ.heap q).lastActive = (σ.heap q).lastActive
  heapHit : ∀ e, e ∈ l → inactive now (σ.heap e.2) = true →
    τ.heap e.2 = { σ.heap e.2 with closeChan := true }
  heapKeep : ∀ q, (∀ e, e ∈ l → e.2 = q → inactive now (σ.heap q) = false) →
    τ.heap q = σ.heap q
  gone : ∀ e, e ∈ l → inactive now (σ.heap e.2) = true → Load e.1 τ.sessions = none
  kept : ∀ k, (∀ e, e ∈ l → e.1 = k → inactive now (σ.heap e.2) = false) →
    Load k τ.sessions = Load k σ.sessions
  sub : List.Sublist τ.sessions σ.sessions
  closes : τ.closes = σ.closes
  nextPtr : τ.nextPtr = σ.nextPtr
  nextConn : τ.nextConn = σ.nextConn
  pump : τ.pump = σ.pump
  out : τ.out = σ.out
  buffer : τ.buffer = σ.buffer
  pumpBuf : τ.pumpBuf = σ.pumpBuf

/-- What `forward` on session `p` turns `σ` into, `ok` being the outcome of
the write. -/
structure ForwardSpec (p : Nat) (data : List Byte) (clientAddr serverAddr : UDPAddr)
    (ok : Bool) (now : Int) (σ τ : World) : Prop where
  out : τ.out = σ.out ++ [Packet.toServer (σ.heap p).serverConn serverAddr data ok]
  nextPtr : τ.nextPtr = σ.nextPtr
  nextConn : τ.nextConn = σ.nextConn
  pump : τ.pump = σ.pump
  conn : ∀ q, (τ.heap q).serverConn = (σ.heap q).serverConn
  addr : ∀ q, (τ.heap q).clientAddr = (σ.heap q).clientAddr
  heapOther : ∀ q, q ≠ p → τ.heap q = σ.heap q
  last : (τ.heap p).lastActive = now
  loadOther : ∀ k, k ≠ clientAddr.String → Load k τ.sessions = Load k σ.sessions
  closesOther : ∀ c, c ≠ (σ.heap p).serverConn → τ.closes c = σ.closes c
  okSessions : ok = true → τ.sessions = σ.sessions
  okCloses : ok = true → τ.closes = σ.closes
  okChan : ok = true → (τ.heap p).closeChan = (σ.heap p).closeChan
  okPanic : ok = true → τ.panicked = σ.panicked
  failLoad : ok = false → Load clientAddr.String τ.sessions = none
  failCloses : ok = false →
    τ.closes (σ.heap p).serverConn = σ.closes (σ.heap p).serverConn + 1
  failChan : ok = false → (τ.heap p).closeChan = true

/-! ## sample schedules -/

/-- The backend endpoint used in the examples. -/
def backend : UDPAddr := ⟨10, 9987⟩

/-- A client endpoint used in the examples. -/
def alice : UDPAddr := ⟨1, 1000⟩

/-- The same host as `alice`, another port. -/
def alice2 : UDPAddr := ⟨1, 1001⟩

/-- A three-byte datagram. -/
def hello : List Byte := [1, 2, 3]

/-- The state after the first datagram of `alice` has been forwarded. -/
def oneSession : World :=
  run backend init [Action.packet hello alice true true 0]

/-- As `oneSession`, with the reader goroutine blocked in its read. -/
def blocked : World :=
  run backend init [Action.packet hello alice true true 0, Action.select 0]

/-- One nanosecond more than five minutes. -/
def late : Int := 300000000001

/-- A second datagram. -/
def again : List Byte := [4, 5]

/-- The first datagram of `alice` arrives and its upstream write fails. -/
def writeFails : List Action :=
  [Action.packet hello alice true false 0]

/-- The reader of `alice` blocks in its read, the next datagram of `alice`
fails to be written, and a third datagram of `alice` is handled before the
reader wakes up. -/
def staleReader : List Action :=
  [Action.packet hello alice true true 0, Action.select 0,
   Action.packet hello alice true false 1, Action.packet again alice true true 2]

/-- Two handlers for first datagrams of `alice`, both past their
`sessions.Load` (which found nothing) before either stores its session. -/
def racedCreate : World :=
  afterLoad (Load alice.String init.sessions) again alice backend true true 0
    (afterLoad (Load alice.String init.sessions) hello alice backend true true 0 init)

/-- The session of `alice` has been torn down by the idle timeout of its
own reader goroutine. -/
def tornDown : World :=
  run backend init [Action.packet hello alice true true 0, Action.select 0,
    Action.read 0 ReadResult.timeout true late]

end TsProxy

namespace TsProxy

/-! ## the table -/

theorem mem_Delete (k : Key) (t : List (Key × Nat)) (e : Key × Nat) :
    e ∈ Delete k t ↔ e ∈ t ∧ e.1 ≠ k := by
  simp [Delete, List.mem_filter]

theorem Delete_cons (k k1 : Key) (v : Nat) (t : List (Key × Nat)) :
    Delete k ((k1, v) :: t) = if k1 = k then Delete k t else (k1, v) :: Delete k t := by
  by_cases h : k1 = k <;> simp [Delete, List.filter_cons, h]

theorem Load_cons (k k1 : Key) (v : Nat) (t : List (Key × Nat)) :
    Load k ((k1, v) :: t) = if k1 = k then some v else Load k t := rfl

theorem Load_Delete_self (k : Key) (t : List (Key × Nat)) : Load k (Delete k t) = none := by
  induction t with
  | nil => rfl
  | cons e t ih =>
    obtain ⟨k1, v⟩ := e
    rw [Delete_cons]
    by_cases h : k1 = k
    · rw [if_pos h]; exact ih
    · rw [if_neg h, Load_cons, if_neg h]; exact ih

theorem Load_Delete_ne (k k1 : Key) (t : List (Key × Nat)) (h : k1 ≠ k) :
    Load k1 (Delete k t) = Load k1 t := by
  induction t with
  | nil => rfl
  | cons e t ih =>
    obtain ⟨k2, v⟩ := e
    rw [Delete_cons, Load_cons]
    by_cases h2 : k2 = k
    · have h3 : k2 ≠ k1 := fun h4 => h (h4 ▸ h2)
      rw [if_pos h2, if_neg h3]; exact ih
    · rw [if_neg h2, Load_cons]
      by_cases h3 : k2 = k1
      · rw [if_pos h3, if_pos h3]
      · rw [if_neg h3, if_neg h3]; exact ih

theorem Load_Store_self (k : Key) (v : Nat) (t : List (Key × Nat)) :
    Load k (Store k v t) = some v := by
  simp [Store, Load]

theorem Load_Store_ne (k k1 : Key) (v : Nat) (t : List (Key × Nat)) (h : k1 ≠ k) :
    Load k1 (Store k v t) = Load k1 t := by
  have h2 : k ≠ k1 := fun h3 => h h3.symm
  simp [Store, Load, h2, Load_Delete_ne k k1 t h]

theorem mem_of_Load (k : Key) (p : Nat) (t : List (Key × Nat)) (h : Load k t = some p) :
    (k, p) ∈ t := by
  induction t with
  | nil => simp [Load] at h
  | cons e t ih =>
    obtain ⟨k1, v⟩ := e
    by_cases h1 : k1 = k
    · simp [Load, h1] at h
      simp [h1, h]
    · simp [Load, h1] at h
      exact List.mem_cons_of_mem _ (ih h)

theorem Load_of_mem (k : Key) (p : Nat) (t : List (Key × Nat))
    (hn : (t.map Prod.fst).Nodup) (h : (k, p) ∈ t) : Load k t = some p := by
  induction t with
  | nil => simp at h
  | cons e t ih =>
    obtain ⟨k1, v⟩ := e
    simp only [List.map_cons, List.nodup_cons] at hn
    rcases List.mem_cons.mp h with h1 | h1
    · cases h1
      simp [Load]
    · have h2 : k1 ≠ k := by
        intro h3
        apply hn.1
        rw [h3]
        exact List.mem_map_of_mem Prod.fst h1
      simp [Load, h2, ih hn.2 h1]

theorem nodup_Delete (k : Key) (t : List (Key × Nat)) (hn : (t.map Prod.fst).Nodup) :
    ((Delete k t).map Prod.fst).Nodup := by
  unfold Delete
  exact (List.Nodup.sublist ((List.filter_sublist t).map Prod.fst) hn)

theorem nodup_Store (k : Key) (v : Nat) (t : List (Key × Nat)) (hn : (t.map Prod.fst).Nodup) :
    ((Store k v t).map Prod.fst).Nodup := by
  unfold Store
  simp only [List.map_cons, List.nodup_cons]
  refine ⟨?_, nodup_Delete k t hn⟩
  intro h
  obtain ⟨e, he, hk⟩ := List.mem_map.mp h
  exact ((mem_Delete k t e).mp he).2 hk

/-! ## buffers -/

theorem readInto_length (buffer datagram : List Byte) :
    (readInto buffer datagram).2.length = buffer.length := by
  simp only [readInto, List.length_append, List.length_take, List.length_drop]
  omega

theorem readInto_take (buffer datagram : List Byte) (h : datagram.length ≤ buffer.length) :
    (readInto buffer datagram).2.take (readInto buffer datagram).1 = datagram := by
  simp only [readInto, Nat.min_eq_left h, List.take_length]
  rw [List.take_append_of_le_length (by simp)]
  simp

/-! ## the invariant -/

theorem closeChannel_eq (p : Nat) (σ : World) :
    closeChannel p σ =
      { σ with
        heap := setAt σ.heap p { σ.heap p with closeChan := true }
        panicked := σ.panicked || (σ.heap p).closeChan } := by
  unfold closeChannel
  by_cases h : (σ.heap p).closeChan = true
  · rw [if_pos h]
    have hh : setAt σ.heap p { σ.heap p with closeChan := true } = σ.heap := by
      funext q
      unfold setAt
      by_cases hq : q = p
      · rw [if_pos hq, hq]
        cases hs : σ.heap p with
        | mk a b c d =>
          rw [hs] at h
          simp only at h
          simp [h]
      · rw [if_neg hq]
    rw [hh, h]
    simp
  · rw [if_neg h]
    simp only [Bool.not_eq_true] at h
    rw [h]
    simp

theorem freshBuffer_length : freshBuffer.length = 1500 := by
  unfold freshBuffer
  exact List.length_replicate _ _

theorem Inv_init : Inv init := by
  constructor
  · simp [init]
  · simp [init]
  · simp [init]
  · simp [init]
  · simp [init]
  · exact freshBuffer_length
  · intro p
    exact freshBuffer_length
  · simp [init]

theorem Inv.transfer {σ τ : World} (h : Inv σ)
    (hn : (τ.sessions.map Prod.fst).Nodup)
    (hsub : ∀ e, e ∈ τ.sessions → e ∈ σ.sessions)
    (hp : τ.nextPtr = σ.nextPtr) (hc : τ.nextConn = σ.nextConn)
    (hconn : ∀ q, (τ.heap q).serverConn = (σ.heap q).serverConn)
    (haddr : ∀ q, (τ.heap q).clientAddr = (σ.heap q).clientAddr)
    (hchan : ∀ k q, (k, q) ∈ τ.sessions → (τ.heap q).closeChan = false)
    (hpump : ∀ q, τ.pump q ≠ PumpPC.done → q < σ.nextPtr)
    (hb : τ.buffer.length = 1500) (hpb : ∀ q, (τ.pumpBuf q).length = 1500)
    (hopen : ∀ k q, (k, q) ∈ τ.sessions → τ.closes (σ.heap q).serverConn = 0) : Inv τ := by
  constructor
  · exact hn
  · intro k q hm
    obtain ⟨h1, h2, _⟩ := h.stored k q (hsub _ hm)
    exact ⟨hp ▸ h1, by rw [haddr]; exact h2, hchan k q hm⟩
  · intro q hq
    rw [hconn, hc]
    exact h.connLt q (hp ▸ hq)
  · intro q r hq hr he
    rw [hconn, hconn] at he
    exact h.connInj q r (hp ▸ hq) (hp ▸ hr) he
  · intro q hq
    rw [hp]
    exact hpump q hq
  · exact hb
  · exact hpb
  · intro k q hm
    rw [hconn]
    exact hopen k q hm

theorem Inv_stamp (p : Nat) (now : Int) (σ : World) (h : Inv σ) : Inv (stamp p now σ) := by
  refine h.transfer h.nodup (fun _ he => he) rfl rfl ?_ ?_ ?_ h.pumpLt h.bufLen h.pumpBufLen
    h.connOpen
  · intro q
    by_cases hq : q = p <;> simp [stamp, setAt, hq]
  · intro q
    by_cases hq : q = p <;> simp [stamp, setAt, hq]
  · intro k q hm
    have := (h.stored k q hm).2.2
    by_cases hq : q = p
    · subst hq
      simpa [stamp, setAt] using this
    · simpa [stamp, setAt, hq] using this

theorem Inv_emit (pk : Packet) (σ : World) (h : Inv σ) : Inv (emit pk σ) :=
  h.transfer h.nodup (fun _ he => he) rfl rfl (fun _ => rfl) (fun _ => rfl)
    (fun k q hm => (h.stored k q hm).2.2) h.pumpLt h.bufLen h.pumpBufLen h.connOpen

theorem Inv_tableDelete (k : Key) (σ : World) (h : Inv σ) : Inv (tableDelete k σ) :=
  h.transfer (nodup_Delete k _ h.nodup) (fun e he => ((mem_Delete k _ e).mp he).1) rfl rfl
    (fun _ => rfl) (fun _ => rfl)
    (fun k1 q hm => (h.stored k1 q ((mem_Delete k _ _).mp hm).1).2.2)
    h.pumpLt h.bufLen h.pumpBufLen
    (fun k1 q hm => h.connOpen k1 q ((mem_Delete k _ _).mp hm).1)

theorem Inv_connClose (c : Nat) (σ : World) (h : Inv σ)
    (hfree : ∀ k q, (k, q) ∈ σ.sessions → (σ.heap q).serverConn ≠ c) :
    Inv (connClose c σ) := by
  refine h.transfer h.nodup (fun _ he => he) rfl rfl (fun _ => rfl) (fun _ => rfl)
    (fun k q hm => (h.stored k q hm).2.2) h.pumpLt h.bufLen h.pumpBufLen ?_
  intro k q hm
  have hne := hfree k q hm
  simp only [connClose, setAt, if_neg hne]
  exact h.connOpen k q hm

theorem Inv.free_of_not_stored {σ : World} (h : Inv σ) (p : Nat) (hp : p < σ.nextPtr)
    (hout : ∀ k, (k, p) ∉ σ.sessions) :
    ∀ k q, (k, q) ∈ σ.sessions → (σ.heap q).serverConn ≠ (σ.heap p).serverConn := by
  intro k q hm he
  have hq := (h.stored k q hm).1
  have hqp : q = p := h.connInj q p hq hp he
  exact hout k (hqp ▸ hm)

theorem Inv_closeChannel (p : Nat) (σ : World) (h : Inv σ)
    (hout : ∀ k, (k, p) ∉ σ.sessions) : Inv (closeChannel p σ) := by
  rw [closeChannel_eq]
  refine h.transfer h.nodup (fun _ he => he) rfl rfl ?_ ?_ ?_ h.pumpLt h.bufLen h.pumpBufLen
    h.connOpen
  · intro q
    by_cases hq : q = p <;> simp [setAt, hq]
  · intro q
    by_cases hq : q = p <;> simp [setAt, hq]
  · intro k q hm
    have hq : q ≠ p := fun hq => hout k (hq ▸ hm)
    simpa [setAt, hq] using (h.stored k q hm).2.2

theorem Inv_setPump (p : Nat) (pc : PumpPC) (σ : World) (h : Inv σ)
    (hp : pc ≠ PumpPC.done → p < σ.nextPtr) : Inv (setPump p pc σ) := by
  refine h.transfer h.nodup (fun _ he => he) rfl rfl (fun _ => rfl) (fun _ => rfl)
    (fun k q hm => (h.stored k q hm).2.2) ?_ h.bufLen h.pumpBufLen h.connOpen
  intro q hq
  by_cases hqp : q = p
  · subst hqp
    apply hp
    simpa [setPump, setAt] using hq
  · apply h.pumpLt
    simpa [setPump, setAt, hqp] using hq

theorem Inv_forward (p : Nat) (data : List Byte) (clientAddr serverAddr : UDPAddr)
    (writeOk : Bool) (now : Int) (σ : World) (h : Inv σ)
    (hp : p < σ.nextPtr)
    (hk : ∀ k, (k, p) ∈ σ.sessions → k = clientAddr.String) :
    Inv (forward p data clientAddr serverAddr writeOk now σ) := by
  have hout : ∀ k, (k, p) ∉ Delete clientAddr.String σ.sessions := by
    intro k hm
    obtain ⟨h1, h2⟩ := (mem_Delete _ _ _).mp hm
    exact h2 (hk k h1)
  unfold forward
  simp only
  split
  · exact Inv_emit _ _ (Inv_stamp _ _ _ h)
  · have hD := Inv_tableDelete clientAddr.String _ (Inv_emit
      (Packet.toServer ((stamp p now σ).heap p).serverConn serverAddr data
        (writeResult (stamp p now σ) ((stamp p now σ).heap p).serverConn writeOk))
      _ (Inv_stamp p now σ h))
    apply Inv_closeChannel
    · exact Inv_connClose _ _ hD (hD.free_of_not_stored p hp hout)
    · exact hout

theorem Inv_newSession (clientAddr : UDPAddr) (now : Int) (σ : World) (h : Inv σ) :
    Inv (newSession σ.nextConn clientAddr now
      { σ with nextConn := σ.nextConn + 1, closes := setAt σ.closes σ.nextConn 0 }) := by
  constructor
  · exact nodup_Store _ _ _ h.nodup
  · intro k q hm
    have hm2 : (k, q) ∈ Store clientAddr.String σ.nextPtr σ.sessions := hm
    unfold Store at hm2
    rcases List.mem_cons.mp hm2 with h1 | h1
    · cases h1
      simp [newSession, setAt]
    · obtain ⟨h2, h3, h4⟩ := h.stored k q ((mem_Delete _ _ _).mp h1).1
      have hq : q ≠ σ.nextPtr := Nat.ne_of_lt h2
      simp only [newSession, setAt, if_neg hq]
      exact ⟨Nat.lt_succ_of_lt h2, h3, h4⟩
  · intro q hq
    have hq2 : q < σ.nextPtr + 1 := hq
    by_cases hqp : q = σ.nextPtr
    · simp [newSession, setAt, hqp]
    · have := h.connLt q (by omega)
      simp only [newSession, setAt, if_neg hqp]
      omega
  · intro q r hq hr he
    have hq2 : q < σ.nextPtr + 1 := hq
    have hr2 : r < σ.nextPtr + 1 := hr
    by_cases hqp : q = σ.nextPtr
    · by_cases hrp : r = σ.nextPtr
      · rw [hqp, hrp]
      · have := h.connLt r (by omega)
        simp only [newSession, setAt, if_neg hrp, if_pos hqp] at he
        omega
    · by_cases hrp : r = σ.nextPtr
      · have := h.connLt q (by omega)
        simp only [newSession, setAt, if_neg hqp, if_pos hrp] at he
        omega
      · simp only [newSession, setAt, if_neg hqp, if_neg hrp] at he
        exact h.connInj q r (by omega) (by omega) he
  · intro q hq
    show q < σ.nextPtr + 1
    by_cases hqp : q = σ.nextPtr
    · omega
    · have : σ.pump q ≠ PumpPC.done := by
        simpa [newSession, setAt, hqp] using hq
      exact Nat.lt_succ_of_lt (h.pumpLt q this)
  · exact h.bufLen
  · intro q
    by_cases hqp : q = σ.nextPtr
    · simp only [newSession, setAt, if_pos hqp]
      exact freshBuffer_length
    · simp only [newSession, setAt, if_neg hqp]
      exact h.pumpBufLen q
  · intro k q hm
    have hm2 : (k, q) ∈ Store clientAddr.String σ.nextPtr σ.sessions := hm
    unfold Store at hm2
    rcases List.mem_cons.mp hm2 with h1 | h1
    · cases h1
      simp [newSession, setAt]
    · have hm3 := ((mem_Delete _ _ _).mp h1).1
      have h2 := (h.stored k q hm3).1
      have hq : q ≠ σ.nextPtr := Nat.ne_of_lt h2
      have hc : (σ.heap q).serverConn ≠ σ.nextConn := Nat.ne_of_lt (h.connLt q h2)
      simp only [newSession, setAt, if_neg hq, if_neg hc]
      exact h.connOpen k q hm3

theorem Inv_afterLoad_none (data : List Byte) (clientAddr serverAddr : UDPAddr)
    (listenOk writeOk : Bool) (now : Int) (σ : World) (h : Inv σ) :
    Inv (afterLoad none data clientAddr serverAddr listenOk writeOk now σ) := by
  cases listenOk with
  | false => exact h
  | true =>
    show Inv (forward _ data clientAddr serverAddr writeOk now
      (newSession σ.nextConn clientAddr now _))
    apply Inv_forward _ _ _ _ _ _ _ (Inv_newSession clientAddr now σ h)
      (Nat.lt_succ_self σ.nextPtr)
    intro k hm
    have hm2 : (k, σ.nextPtr) ∈ Store clientAddr.String σ.nextPtr σ.sessions := hm
    unfold Store at hm2
    rcases List.mem_cons.mp hm2 with h1 | h1
    · cases h1
      rfl
    · have := (h.stored k σ.nextPtr ((mem_Delete _ _ _).mp h1).1).1
      omega

theorem Inv_handleClientPacket (data : List Byte) (clientAddr serverAddr : UDPAddr)
    (listenOk writeOk : Bool) (now : Int) (σ : World) (h : Inv σ) :
    Inv (handleClientPacket data clientAddr serverAddr listenOk writeOk now σ) := by
  unfold handleClientPacket
  cases hl : Load clientAddr.String σ.sessions with
  | none => exact Inv_afterLoad_none _ _ _ _ _ _ _ h
  | some p =>
    show Inv (forward p data clientAddr serverAddr writeOk now σ)
    apply Inv_forward _ _ _ _ _ _ _ h (h.stored _ p (mem_of_Load _ _ _ hl)).1
    intro k hm
    exact ((h.stored k p hm).2.1).symm.trans
      (h.stored _ p (mem_of_Load _ _ _ hl)).2.1

theorem Inv_mainRecv (d : List Byte) (σ : World) (h : Inv σ) : Inv (mainRecv d σ).2 :=
  h.transfer h.nodup (fun _ he => he) rfl rfl (fun _ => rfl) (fun _ => rfl)
    (fun k q hm => (h.stored k q hm).2.2) h.pumpLt
    ((readInto_length _ _).trans h.bufLen) h.pumpBufLen h.connOpen

theorem Inv_pumpRecv (p : Nat) (d : List Byte) (σ : World) (h : Inv σ) :
    Inv (pumpRecv p d σ).2 := by
  refine h.transfer h.nodup (fun _ he => he) rfl rfl (fun _ => rfl) (fun _ => rfl)
    (fun k q hm => (h.stored k q hm).2.2) h.pumpLt h.bufLen ?_ h.connOpen
  intro q
  by_cases hq : q = p
  · simp only [pumpRecv, setAt, if_pos hq]
    exact (readInto_length _ _).trans (h.pumpBufLen p)
  · simp only [pumpRecv, setAt, if_neg hq]
    exact h.pumpBufLen q

theorem Inv_pumpExit (p : Nat) (σ : World) (h : Inv σ) (hp : p < σ.nextPtr)
    (hout : ∀ k, (k, p) ∉ σ.sessions) : Inv (pumpExit p σ) := by
  have hC := Inv_closeChannel p σ h hout
  have hp1 : p < (closeChannel p σ).nextPtr := by
    rw [closeChannel_eq]
    exact hp
  have hout1 : ∀ k, (k, p) ∉ (closeChannel p σ).sessions := by
    rw [closeChannel_eq]
    exact hout
  unfold pumpExit
  exact Inv_setPump _ _ _ (Inv_connClose _ _ hC (hC.free_of_not_stored p hp1 hout1))
    (fun hne => absurd rfl hne)

theorem Inv_pumpSelect (p : Nat) (σ : World) (h : Inv σ) (hp : σ.pump p = PumpPC.atSelect) :
    Inv (pumpSelect p σ) := by
  unfold pumpSelect
  split
  · rename_i hc
    apply Inv_pumpExit p σ h (h.pumpLt p (by rw [hp]; decide))
    intro k hm
    have := (h.stored k p hm).2.2
    rw [hc] at this
    cases this
  · apply Inv_setPump _ _ _ h
    intro _
    apply h.pumpLt
    rw [hp]
    decide

theorem not_mem_tableDelete_own (p : Nat) (σ : World) (h : Inv σ) (k : Key) :
    (k, p) ∉ (tableDelete (σ.heap p).clientAddr.String σ).sessions := by
  intro hm
  have hm2 : (k, p) ∈ Delete (σ.heap p).clientAddr.String σ.sessions := hm
  obtain ⟨h1, h2⟩ := (mem_Delete _ _ _).mp hm2
  exact h2 (h.stored k p h1).2.1.symm

theorem Inv_pumpRead (p : Nat) (r : ReadResult) (writeOk : Bool) (now : Int) (σ : World)
    (h : Inv σ) (hp : σ.pump p = PumpPC.inRead) : Inv (pumpRead p r writeOk now σ) := by
  have hlt : p < σ.nextPtr := h.pumpLt p (by rw [hp]; decide)
  unfold pumpRead
  simp only
  split
  · split
    · exact Inv_pumpExit _ _ (Inv_tableDelete _ _ h) hlt (not_mem_tableDelete_own p σ h)
    · exact Inv_setPump _ _ _ h (fun _ => hlt)
  · exact Inv_pumpExit _ _ (Inv_tableDelete _ _ h) hlt (not_mem_tableDelete_own p σ h)
  · rename_i payload _
    have h1 : Inv (emit (Packet.toClient (σ.heap p).clientAddr (pumpRecv p payload σ).1 writeOk)
        (pumpRecv p payload σ).2) := Inv_emit _ _ (Inv_pumpRecv p payload σ h)
    split
    · exact Inv_setPump _ _ _ (Inv_stamp _ _ _ h1) (fun _ => hlt)
    · exact Inv_pumpExit _ _ (Inv_tableDelete _ _ h1) hlt (not_mem_tableDelete_own p _ h)

/-! ## the sweep -/

theorem inactive_congr (now : Int) (s t : session) (h : s.lastActive = t.lastActive) :
    inactive now s = inactive now t := by
  unfold inactive
  rw [h]

theorem reapEntry_idle (now : Int) (σ : World) (e : Key × Nat) (ha : σ.panicked = false)
    (hi : inactive now (σ.heap e.2) = true) :
    reapEntry now σ e = closeChannel e.2 (tableDelete e.1 σ) := by
  simp [reapEntry, ha, hi]

theorem reapEntry_live (now : Int) (σ : World) (e : Key × Nat)
    (hi : inactive now (σ.heap e.2) = false) : reapEntry now σ e = σ := by
  simp [reapEntry, hi]

theorem SweepSpec_nil (now : Int) (σ : World) (ha : σ.panicked = false) :
    SweepSpec now [] σ σ := by
  constructor <;> first | rfl | exact ha | (intros; rfl) | exact List.Sublist.refl _ | skip
  · intro e he
    cases he
  · intro e he
    cases he

theorem sweep_fold (now : Int) (l : List (Key × Nat)) :
    ∀ σ : World, σ.panicked = false →
      (∀ e, e ∈ l → (σ.heap e.2).closeChan = false) →
      (l.map Prod.snd).Nodup →
      SweepSpec now l σ (l.foldl (reapEntry now) σ) := by
  induction l with
  | nil =>
    intro σ ha _ _
    exact SweepSpec_nil now σ ha
  | cons e l ih =>
    intro σ ha hopen hnd
    simp only [List.map_cons, List.nodup_cons] at hnd
    have hne : ∀ d, d ∈ l → d.2 ≠ e.2 := by
      intro d hd hq
      exact hnd.1 (hq ▸ List.mem_map_of_mem Prod.snd hd)
    have hopenTail : ∀ d, d ∈ l → (σ.heap d.2).closeChan = false :=
      fun d hd => hopen d (List.mem_cons_of_mem _ hd)
    rw [List.foldl_cons]
    cases hi : inactive now (σ.heap e.2) with
    | false =>
      rw [reapEntry_live now σ e hi]
      have I := ih σ ha hopenTail hnd.2
      refine { I with heapHit := ?_, heapKeep := ?_, gone := ?_, kept := ?_ }
      · intro d hd hid
        rcases List.mem_cons.mp hd with h1 | h1
        · rw [h1, hi] at hid
          cases hid
        · exact I.heapHit d h1 hid
      · intro q hq
        exact I.heapKeep q (fun d hd => hq d (List.mem_cons_of_mem _ hd))
      · intro d hd hid
        rcases List.mem_cons.mp hd with h1 | h1
        · rw [h1, hi] at hid
          cases hid
        · exact I.gone d h1 hid
      · intro k hk
        exact I.kept k (fun d hd => hk d (List.mem_cons_of_mem _ hd))
    | true =>
      rw [reapEntry_idle now σ e ha hi, closeChannel_eq]
      have hce : (σ.heap e.2).closeChan = false := hopen e (List.mem_cons_self _ _)
      generalize hσ1 : ({ tableDelete e.1 σ with
          heap := setAt (tableDelete e.1 σ).heap e.2
            { (tableDelete e.1 σ).heap e.2 with closeChan := true }
          panicked := (tableDelete e.1 σ).panicked || ((tableDelete e.1 σ).heap e.2).closeChan }
          : World) = σ1
      have hs1 : σ1.sessions = Delete e.1 σ.sessions := by rw [← hσ1]; rfl
      have hh1 : ∀ q, σ1.heap q = if q = e.2 then { σ.heap e.2 with closeChan := true }
          else σ.heap q := by
        intro q
        rw [← hσ1]
        rfl
      have hp1 : σ1.panicked = false := by
        rw [← hσ1]
        show (σ.panicked || (σ.heap e.2).closeChan) = false
        rw [ha, hce]
        rfl
      have hlast : ∀ q, (σ1.heap q).lastActive = (σ.heap q).lastActive := by
        intro q
        rw [hh1]
        by_cases hq : q = e.2
        · rw [if_pos hq, hq]
        · rw [if_neg hq]
      have hina : ∀ q, inactive now (σ1.heap q) = inactive now (σ.heap q) :=
        fun q => inactive_congr now _ _ (hlast q)
      have hopen1 : ∀ d, d ∈ l → (σ1.heap d.2).closeChan = false := by
        intro d hd
        rw [hh1, if_neg (hne d hd)]
        exact hopenTail d hd
      have I := ih σ1 hp1 hopen1 hnd.2
      constructor
      · exact I.alive
      · intro q
        rw [I.conn, hh1]
        by_cases hq : q = e.2
        · rw [if_pos hq, hq]
        · rw [if_neg hq]
      · intro q
        rw [I.addr, hh1]
        by_cases hq : q = e.2
        · rw [if_pos hq, hq]
        · rw [if_neg hq]
      · intro q
        rw [I.last, hlast]
      · intro d hd hid
        rcases List.mem_cons.mp hd with h1 | h1
        · rw [h1]
          rw [I.heapKeep e.2 (fun d hd hq => absurd hq (hne d hd)), hh1, if_pos rfl]
        · rw [I.heapHit d h1 (by rw [hina]; exact hid), hh1, if_neg (hne d h1)]
      · intro q hq
        have hqe : q ≠ e.2 := by
          intro hqe
          have := hq e (List.mem_cons_self _ _) hqe.symm
          rw [hqe, hi] at this
          cases this
        rw [I.heapKeep q (fun d hd hdq => by
          rw [hina]; exact hq d (List.mem_cons_of_mem _ hd) hdq), hh1, if_neg hqe]
      · intro d hd hid
        by_cases hex : ∃ d1, d1 ∈ l ∧ d1.1 = d.1 ∧ inactive now (σ.heap d1.2) = true
        · obtain ⟨d1, hd1, hk1, hi1⟩ := hex
          rw [← hk1]
          exact I.gone d1 hd1 (by rw [hina]; exact hi1)
        · have hall : ∀ d1, d1 ∈ l → d1.1 = d.1 → inactive now (σ1.heap d1.2) = false := by
            intro d1 hd1 hk1
            rw [hina]
            cases hv : inactive now (σ.heap d1.2) with
            | false => rfl
            | true => exact absurd ⟨d1, hd1, hk1, hv⟩ hex
          rw [I.kept d.1 hall, hs1]
          rcases List.mem_cons.mp hd with h1 | h1
          · rw [h1]
            exact Load_Delete_self _ _
          · exact absurd ⟨d, h1, rfl, hid⟩ hex
      · intro k hk
        have hke : k ≠ e.1 := by
          intro hke
          have := hk e (List.mem_cons_self _ _) hke.symm
          rw [hi] at this
          cases this
        rw [I.kept k (fun d hd hdk => by
          rw [hina]; exact hk d (List.mem_cons_of_mem _ hd) hdk), hs1]
        exact Load_Delete_ne _ _ _ hke
      · refine I.sub.trans ?_
        rw [hs1]
        exact List.filter_sublist _
      · rw [I.closes, ← hσ1]; rfl
      · rw [I.nextPtr, ← hσ1]; rfl
      · rw [I.nextConn, ← hσ1]; rfl
      · rw [I.pump, ← hσ1]; rfl
      · rw [I.out, ← hσ1]; rfl
      · rw [I.buffer, ← hσ1]; rfl
      · rw [I.pumpBuf, ← hσ1]; rfl

theorem Inv.ptr_unique {σ : World} (h : Inv σ) (d e : Key × Nat)
    (hd : d ∈ σ.sessions) (he : e ∈ σ.sessions) (hq : d.2 = e.2) : d = e := by
  obtain ⟨k1, q1⟩ := d
  obtain ⟨k2, q2⟩ := e
  have hq2 : q1 = q2 := hq
  subst hq2
  have h1 := (h.stored k1 q1 hd).2.1
  have h2 := (h.stored k2 q1 he).2.1
  rw [← h1, ← h2]

theorem Inv.nodup_ptrs {σ : World} (h : Inv σ) : (σ.sessions.map Prod.snd).Nodup := by
  apply List.Nodup.map_on
  · intro d hd e he hq
    exact h.ptr_unique d e hd he hq
  · exact List.Nodup.of_map _ h.nodup

theorem sweep_spec (now : Int) (σ : World) (h : Inv σ) (ha : σ.panicked = false) :
    SweepSpec now σ.sessions σ (cleanupSessions now σ) :=
  sweep_fold now σ.sessions σ ha (fun e he => (h.stored e.1 e.2 he).2.2) h.nodup_ptrs

theorem Inv_cleanupSessions (now : Int) (σ : World) (h : Inv σ) (ha : σ.panicked = false) :
    Inv (cleanupSessions now σ) := by
  have S := sweep_spec now σ h ha
  refine h.transfer (List.Nodup.sublist (S.sub.map Prod.fst) h.nodup)
    (fun e he => S.sub.subset he) S.nextPtr S.nextConn S.conn S.addr ?_ ?_ ?_ ?_
    (fun k q hm => by rw [S.closes]; exact h.connOpen k q (S.sub.subset hm))
  · intro k q hm
    have hm0 : (k, q) ∈ σ.sessions := S.sub.subset hm
    have hL : Load k (cleanupSessions now σ).sessions = some q :=
      Load_of_mem k q _ (List.Nodup.sublist (S.sub.map Prod.fst) h.nodup) hm
    cases hi : inactive now (σ.heap q) with
    | true =>
      have := S.gone (k, q) hm0 hi
      rw [hL] at this
      cases this
    | false =>
      rw [S.heapKeep q (fun _ _ _ => hi)]
      exact (h.stored k q hm0).2.2
  · intro q hq
    rw [S.pump] at hq
    exact h.pumpLt q hq
  · rw [S.buffer]
    exact h.bufLen
  · intro q
    rw [S.pumpBuf]
    exact h.pumpBufLen q

theorem Inv_step (serverAddr : UDPAddr) (σ : World) (a : Action) (h : Inv σ) :
    Inv (step serverAddr σ a) := by
  cases hpan : σ.panicked with
  | true =>
    cases a <;> simp only [step, hpan, if_true] <;> exact h
  | false =>
    cases a with
    | packet d addr l w now =>
      simp only [step, hpan, Bool.false_eq_true, if_false]
      exact Inv_handleClientPacket _ _ _ _ _ _ _ (Inv_mainRecv d σ h)
    | select p =>
      simp only [step, hpan, Bool.false_eq_true, if_false]
      split
      · rename_i hp
        exact Inv_pumpSelect p σ h hp
      · exact h
    | read p r w now =>
      simp only [step, hpan, Bool.false_eq_true, if_false]
      split
      · rename_i hp
        exact Inv_pumpRead p r w now σ h hp
      · exact h
    | tick now =>
      simp only [step, hpan, Bool.false_eq_true, if_false]
      exact Inv_cleanupSessions now σ h hpan

theorem Inv_run (serverAddr : UDPAddr) (acts : List Action) :
    ∀ σ : World, Inv σ → Inv (run serverAddr σ acts) := by
  induction acts with
  | nil => intro σ h; exact h
  | cons a acts ih =>
    intro σ h
    exact ih _ (Inv_step serverAddr σ a h)

theorem Reachable.inv {serverAddr : UDPAddr} {σ : World} (h : Reachable serverAddr σ) :
    Inv σ := by
  obtain ⟨acts, rfl⟩ := h
  exact Inv_run serverAddr acts init Inv_init

theorem inactive_iff (now : Int) (s : session) :
    inactive now s = true ↔ now - s.lastActive > fiveMinutes := by
  unfold inactive Since fiveMinutes minDuration maxDuration
  rw [decide_eq_true_iff]
  omega

theorem inactive_false_iff (now : Int) (s : session) :
    inactive now s = false ↔ now - s.lastActive ≤ fiveMinutes := by
  rw [← Bool.not_eq_true, inactive_iff]
  omega

/-! ## the forwarding step -/

theorem forward_eq (p : Nat) (data : List Byte) (clientAddr serverAddr : UDPAddr)
    (writeOk : Bool) (now : Int) (σ : World) :
    forward p data clientAddr serverAddr writeOk now σ =
      if writeResult σ (σ.heap p).serverConn writeOk = true then
        emit (Packet.toServer (σ.heap p).serverConn serverAddr data true) (stamp p now σ)
      else
        closeChannel p (connClose (σ.heap p).serverConn (tableDelete clientAddr.String
          (emit (Packet.toServer (σ.heap p).serverConn serverAddr data false)
            (stamp p now σ)))) := by
  have hc : ((stamp p now σ).heap p).serverConn = (σ.heap p).serverConn := by
    simp [stamp, setAt]
  have hw : writeResult (stamp p now σ) (σ.heap p).serverConn writeOk
      = writeResult σ (σ.heap p).serverConn writeOk := rfl
  unfold forward
  simp only [hc, hw]
  cases hv : writeResult σ (σ.heap p).serverConn writeOk <;> simp

theorem forward_spec (p : Nat) (data : List Byte) (clientAddr serverAddr : UDPAddr)
    (writeOk : Bool) (now : Int) (σ : World) :
    ForwardSpec p data clientAddr serverAddr (writeResult σ (σ.heap p).serverConn writeOk)
      now σ (forward p data clientAddr serverAddr writeOk now σ) := by
  rw [forward_eq]
  generalize writeResult σ (σ.heap p).serverConn writeOk = ok
  cases ok with
  | true =>
    simp only [if_true]
    constructor
    · rfl
    · rfl
    · rfl
    · rfl
    · intro q
      by_cases hq : q = p <;> simp [emit, stamp, setAt, hq]
    · intro q
      by_cases hq : q = p <;> simp [emit, stamp, setAt, hq]
    · intro q hq
      simp [emit, stamp, setAt, hq]
    · simp [emit, stamp, setAt]
    · intro k _
      rfl
    · intro c _
      rfl
    · intro _; rfl
    · intro _; rfl
    · intro _
      simp [emit, stamp, setAt]
    · intro _; rfl
    · intro h; cases h
    · intro h; cases h
    · intro h; cases h
  | false =>
    simp only [Bool.false_eq_true, if_false]
    rw [closeChannel_eq]
    constructor
    · rfl
    · rfl
    · rfl
    · rfl
    · intro q
      by_cases hq : q = p <;> simp [connClose, tableDelete, emit, stamp, setAt, hq]
    · intro q
      by_cases hq : q = p <;> simp [connClose, tableDelete, emit, stamp, setAt, hq]
    · intro q hq
      simp [connClose, tableDelete, emit, stamp, setAt, hq]
    · simp [connClose, tableDelete, emit, stamp, setAt]
    · intro k hk
      exact Load_Delete_ne _ _ _ hk
    · intro c hc
      simp [connClose, tableDelete, emit, stamp, setAt, hc]
    · intro h; cases h
    · intro h; cases h
    · intro h; cases h
    · intro h; cases h
    · intro _
      exact Load_Delete_self _ _
    · intro _
      simp [connClose, tableDelete, emit, stamp, setAt]
    · intro _
      simp [connClose, tableDelete, emit, stamp, setAt]

/-! ## handleClientPacket -/

theorem hcp_some (data : List Byte) (clientAddr serverAddr : UDPAddr)
    (listenOk writeOk : Bool) (now : Int) (σ : World) (p : Nat)
    (hL : Load clientAddr.String σ.sessions = some p) :
    handleClientPacket data clientAddr serverAddr listenOk writeOk now σ
      = forward p data clientAddr serverAddr writeOk now σ := by
  unfold handleClientPacket
  rw [hL]
  rfl

theorem hcp_none_fail (data : List Byte) (clientAddr serverAddr : UDPAddr)
    (writeOk : Bool) (now : Int) (σ : World)
    (hL : Load clientAddr.String σ.sessions = none) :
    handleClientPacket data clientAddr serverAddr false writeOk now σ = σ := by
  unfold handleClientPacket
  rw [hL]
  rfl

theorem hcp_none_ok (data : List Byte) (clientAddr serverAddr : UDPAddr)
    (writeOk : Bool) (now : Int) (σ : World)
    (hL : Load clientAddr.String σ.sessions = none) :
    handleClientPacket data clientAddr serverAddr true writeOk now σ
      = forward σ.nextPtr data clientAddr serverAddr writeOk now (created clientAddr now σ) := by
  unfold handleClientPacket
  rw [hL]
  rfl

theorem created_heap_new (clientAddr : UDPAddr) (now : Int) (σ : World) :
    (created clientAddr now σ).heap σ.nextPtr = ⟨σ.nextConn, clientAddr, now, false⟩ := by
  simp [created, newSession, setAt]

theorem created_heap_old (clientAddr : UDPAddr) (now : Int) (σ : World) (q : Nat)
    (hq : q ≠ σ.nextPtr) : (created clientAddr now σ).heap q = σ.heap q := by
  simp [created, newSession, setAt, hq]

theorem created_closes_new (clientAddr : UDPAddr) (now : Int) (σ : World) :
    (created clientAddr now σ).closes σ.nextConn = 0 := by
  simp [created, newSession, setAt]

theorem created_closes_old (clientAddr : UDPAddr) (now : Int) (σ : World) (c : Nat)
    (hc : c ≠ σ.nextConn) : (created clientAddr now σ).closes c = σ.closes c := by
  simp [created, newSession, setAt, hc]

theorem created_sessions (clientAddr : UDPAddr) (now : Int) (σ : World) :
    (created clientAddr now σ).sessions = Store clientAddr.String σ.nextPtr σ.sessions := rfl

theorem created_out (clientAddr : UDPAddr) (now : Int) (σ : World) :
    (created clientAddr now σ).out = σ.out := rfl

theorem writeResult_open (σ : World) (c : Nat) (w : Bool) (h : σ.closes c = 0) :
    writeResult σ c w = w := by
  unfold writeResult
  rw [h]
  simp

theorem forward_outcome (p : Nat) (data : List Byte) (clientAddr serverAddr : UDPAddr)
    (writeOk : Bool) (now : Int) (σ : World)
    (hL : Load clientAddr.String σ.sessions = some p)
    (hchan : (σ.heap p).closeChan = false)
    (hopen : σ.closes (σ.heap p).serverConn = 0) :
    (forward p data clientAddr serverAddr writeOk now σ).out
      = σ.out ++ [Packet.toServer (σ.heap p).serverConn serverAddr data writeOk] ∧
    (writeOk = false →
      Load clientAddr.String (forward p data clientAddr serverAddr writeOk now σ).sessions
        = none ∧
      (forward p data clientAddr serverAddr writeOk now σ).closes (σ.heap p).serverConn = 1 ∧
      ((forward p data clientAddr serverAddr writeOk now σ).heap p).closeChan = true) ∧
    (writeOk = true →
      Load clientAddr.String (forward p data clientAddr serverAddr writeOk now σ).sessions
        = some p ∧
      (forward p data clientAddr serverAddr writeOk now σ).closes (σ.heap p).serverConn = 0 ∧
      ((forward p data clientAddr serverAddr writeOk now σ).heap p).closeChan = false) := by
  have F := forward_spec p data clientAddr serverAddr writeOk now σ
  rw [writeResult_open σ _ writeOk hopen] at F
  refine ⟨F.out, ?_, ?_⟩
  · intro hf
    refine ⟨F.failLoad hf, ?_, F.failChan hf⟩
    rw [F.failCloses hf, hopen]
  · intro ht
    refine ⟨?_, ?_, ?_⟩
    · rw [F.okSessions ht]
      exact hL
    · rw [F.okCloses ht]
      exact hopen
    · rw [F.okChan ht]
      exact hchan

theorem hcp_outcome (serverAddr : UDPAddr) (σ : World) (data : List Byte)
    (clientAddr : UDPAddr) (listenOk writeOk : Bool) (now : Int)
    (hI : Inv σ)
    (hs : Load clientAddr.String σ.sessions ≠ none ∨ listenOk = true) :
    let τ := handleClientPacket data clientAddr serverAddr listenOk writeOk now σ
    let p := resolve clientAddr σ
    let c := (τ.heap p).serverConn
    τ.out = σ.out ++ [Packet.toServer c serverAddr data writeOk] ∧
    (writeOk = false →
      Load clientAddr.String τ.sessions = none ∧ τ.closes c = 1 ∧
      (τ.heap p).closeChan = true) ∧
    (writeOk = true →
      Load clientAddr.String τ.sessions = some p ∧ τ.closes c = 0 ∧
      (τ.heap p).closeChan = false) := by
  intro τ p c
  cases hL : Load clientAddr.String σ.sessions with
  | some q =>
    have hp : p = q := by
      show resolve clientAddr σ = q
      simp [resolve, hL]
    have hτ : τ = forward q data clientAddr serverAddr writeOk now σ :=
      hcp_some _ _ _ _ _ _ _ q hL
    have hc : c = (σ.heap q).serverConn := by
      show (τ.heap p).serverConn = _
      rw [hp, hτ]
      exact (forward_spec q data clientAddr serverAddr writeOk now σ).conn q
    have hm := mem_of_Load _ _ _ hL
    rw [hc, hp, hτ]
    exact forward_outcome q data clientAddr serverAddr writeOk now σ hL
      (hI.stored _ q hm).2.2 (hI.connOpen _ q hm)
  | none =>
    have hl : listenOk = true := by
      rcases hs with h | h
      · exact absurd hL h
      · exact h
    have hp : p = σ.nextPtr := by
      show resolve clientAddr σ = σ.nextPtr
      simp [resolve, hL]
    have hτ : τ = forward σ.nextPtr data clientAddr serverAddr writeOk now
        (created clientAddr now σ) := by
      show handleClientPacket data clientAddr serverAddr listenOk writeOk now σ = _
      rw [hl]
      exact hcp_none_ok _ _ _ _ _ _ hL
    have hc : c = ((created clientAddr now σ).heap σ.nextPtr).serverConn := by
      show (τ.heap p).serverConn = _
      rw [hp, hτ]
      exact (forward_spec σ.nextPtr data clientAddr serverAddr writeOk now _).conn _
    have hout : (created clientAddr now σ).out = σ.out := rfl
    rw [hc, hp, hτ, ← hout]
    apply forward_outcome
    · rw [created_sessions]
      exact Load_Store_self _ _ _
    · rw [created_heap_new]
    · rw [created_heap_new]
      exact created_closes_new _ _ _

/-- C4: in a reachable state, a datagram for which a session is at hand
(stored under the client's key, or newly created because the socket could
be allocated) is written exactly once, to the upstream socket of that
session, which is open, so that the write fails exactly when the
operating system refuses it (`writeOk = false`). When the write fails,
the table has no entry under the client's key afterwards, the socket has
been closed (one `Close` call), `closeChan` is closed and no other write
is made; when it succeeds, the session is in the table under its key with
its socket and `closeChan` open. -/
theorem C4_upstream_write_outcome (serverAddr : UDPAddr) (σ : World) (data : List Byte)
    (clientAddr : UDPAddr) (listenOk writeOk : Bool) (now : Int)
    (hr : Reachable serverAddr σ)
    (hs : Load clientAddr.String σ.sessions ≠ none ∨ listenOk = true) :
    let τ := handleClientPacket data clientAddr serverAddr listenOk writeOk now σ
    let p := resolve clientAddr σ
    let c := (τ.heap p).serverConn
    τ.out = σ.out ++ [Packet.toServer c serverAddr data writeOk] ∧
    (writeOk = false →
      Load clientAddr.String τ.sessions = none ∧ τ.closes c = 1 ∧
      (τ.heap p).closeChan = true) ∧
    (writeOk = true →
      Load clientAddr.String τ.sessions = some p ∧ τ.closes c = 0 ∧
      (τ.heap p).closeChan = false) :=
  hcp_outcome serverAddr σ data clientAddr listenOk writeOk now hr.inv hs

/-- A datagram of `alice`, whose session is in the table, fails to be
written: the entry is gone, the socket and `closeChan` are closed, and the
only write logged is the failed one. -/
theorem C4_upstream_write_outcome_witness :
    Reachable backend oneSession ∧
    (Load alice.String oneSession.sessions ≠ none ∨ false = true) ∧
    (handleClientPacket again alice backend false false 1 oneSession).out
      = oneSession.out ++ [Packet.toServer
          ((handleClientPacket again alice backend false false 1 oneSession).heap
            (resolve alice oneSession)).serverConn backend again false] ∧
    Load alice.String (handleClientPacket again alice backend false false 1 oneSession).sessions
      = none ∧
    (handleClientPacket again alice backend false false 1 oneSession).closes
      ((handleClientPacket again alice backend false false 1 oneSession).heap
        (resolve alice oneSession)).serverConn = 1 ∧
    ((handleClientPacket again alice backend false false 1 oneSession).heap
      (resolve alice oneSession)).closeChan = true :=
  ⟨⟨_, rfl⟩, Or.inl (by decide),
    (C4_upstream_write_outcome backend oneSession again alice false false 1 ⟨_, rfl⟩
      (Or.inl (by decide))).1,
    (C4_upstream_write_outcome backend oneSession again alice false false 1 ⟨_, rfl⟩
      (Or.inl (by decide))).2.1 rfl⟩

/-! ## runSessionServerReader -/

theorem pumpExit_eq (p : Nat) (σ : World) :
    pumpExit p σ =
      { σ with
        heap := setAt σ.heap p { σ.heap p with closeChan := true }
        panicked := σ.panicked || (σ.heap p).closeChan
        closes := setAt σ.closes (σ.heap p).serverConn (σ.closes (σ.heap p).serverConn + 1)
        pump := setAt σ.pump p PumpPC.done } := by
  unfold pumpExit
  simp only [closeChannel_eq]
  simp [setPump, connClose, setAt]

theorem readResult_ne_error (σ : World) (c : Nat) (r : ReadResult)
    (h : readResult σ c r ≠ ReadResult.error) : σ.closes c = 0 ∧ readResult σ c r = r := by
  unfold readResult at h ⊢
  by_cases hc : σ.closes c = 0
  · exact ⟨hc, by rw [if_pos hc]⟩
  · rw [if_neg hc] at h
    exact absurd rfl h

/-- C6: when the read of the reader goroutine ends with a timeout at time
`now` and `closeChan` is not closed: if `now - lastActive` is more than
five minutes, the key of the session is removed from the table, the
goroutine has returned and the upstream socket, open before, is closed
(and `closeChan` closed without a panic); if it is at most five minutes,
the goroutine is back at the head of its loop and the table, every
socket, and every session object (so `closeChan` and `lastActive`) are
unchanged. -/
theorem C6_pump_idle_check (σ : World) (p : Nat) (r : ReadResult) (writeOk : Bool) (now : Int)
    (hchan : (σ.heap p).closeChan = false)
    (hread : readResult σ (σ.heap p).serverConn r = ReadResult.timeout) :
    let τ := pumpRead p r writeOk now σ
    (now - (σ.heap p).lastActive > fiveMinutes →
      Load (σ.heap p).clientAddr.String τ.sessions = none ∧
      τ.pump p = PumpPC.done ∧
      σ.closes (σ.heap p).serverConn = 0 ∧ τ.closes (σ.heap p).serverConn = 1 ∧
      (τ.heap p).closeChan = true ∧ τ.panicked = σ.panicked) ∧
    (now - (σ.heap p).lastActive ≤ fiveMinutes →
      τ.sessions = σ.sessions ∧ τ.closes = σ.closes ∧ τ.heap = σ.heap ∧
      τ.pump p = PumpPC.atSelect ∧ τ.panicked = σ.panicked) := by
  intro τ
  have hopen : σ.closes (σ.heap p).serverConn = 0 :=
    (readResult_ne_error σ _ r (by rw [hread]; intro h; cases h)).1
  constructor
  · intro hlt
    have hi : inactive now (σ.heap p) = true := (inactive_iff now _).mpr hlt
    have hτ : τ = pumpExit p (tableDelete (σ.heap p).clientAddr.String σ) := by
      show pumpRead p r writeOk now σ = _
      unfold pumpRead
      simp only [hread, hi, if_true]
    rw [hτ, pumpExit_eq]
    refine ⟨Load_Delete_self _ _, ?_, hopen, ?_, ?_, ?_⟩
    · simp [setAt]
    · simp [tableDelete, setAt, hopen]
    · simp [setAt]
    · simp [tableDelete, hchan]
  · intro hle
    have hi : inactive now (σ.heap p) = false := (inactive_false_iff now _).mpr hle
    have hτ : τ = setPump p PumpPC.atSelect σ := by
      show pumpRead p r writeOk now σ = _
      unfold pumpRead
      simp only [hread, hi, Bool.false_eq_true, if_false]
    rw [hτ]
    refine ⟨rfl, rfl, rfl, ?_, rfl⟩
    simp [setPump, setAt]

/-- A timeout of the reader of `alice` after more than five minutes. -/
theorem C6_pump_idle_check_witness :
    (blocked.heap 0).closeChan = false ∧
    readResult blocked (blocked.heap 0).serverConn ReadResult.timeout = ReadResult.timeout ∧
    (late - (blocked.heap 0).lastActive > fiveMinutes →
      Load (blocked.heap 0).clientAddr.String
        (pumpRead 0 ReadResult.timeout true late blocked).sessions = none ∧
      (pumpRead 0 ReadResult.timeout true late blocked).pump 0 = PumpPC.done ∧
      blocked.closes (blocked.heap 0).serverConn = 0 ∧
      (pumpRead 0 ReadResult.timeout true late blocked).closes (blocked.heap 0).serverConn = 1 ∧
      ((pumpRead 0 ReadResult.timeout true late blocked).heap 0).closeChan = true ∧
      (pumpRead 0 ReadResult.timeout true late blocked).panicked = blocked.panicked) :=
  ⟨by decide, by decide,
    (C6_pump_idle_check blocked 0 ReadResult.timeout true late (by decide) (by decide)).1⟩

/-- C7: one sweep of `cleanupSessions` at time `now`, for a session stored
under `k`: if `now - lastActive` is more than five minutes, it is under no
key of the table afterwards and its `closeChan` is closed; if it is at
most five minutes, it is still stored under `k` and the session object
(`closeChan`, `lastActive`) and its socket are unchanged. -/
theorem C7_cleanupSessions_sweep (serverAddr : UDPAddr) (σ : World) (now : Int)
    (k : Key) (p : Nat)
    (hr : Reachable serverAddr σ) (ha : σ.panicked = false)
    (hin : Load k σ.sessions = some p) :
    let τ := cleanupSessions now σ
    (now - (σ.heap p).lastActive > fiveMinutes →
      Load k τ.sessions = none ∧ (∀ k1, Load k1 τ.sessions ≠ some p) ∧
      (τ.heap p).closeChan = true) ∧
    (now - (σ.heap p).lastActive ≤ fiveMinutes →
      Load k τ.sessions = some p ∧ τ.heap p = σ.heap p ∧ τ.closes = σ.closes) := by
  intro τ
  have hI := hr.inv
  have S : SweepSpec now σ.sessions σ τ := sweep_spec now σ hI ha
  have hm : (k, p) ∈ σ.sessions := mem_of_Load k p _ hin
  constructor
  · intro hlt
    have hi : inactive now (σ.heap p) = true := (inactive_iff now _).mpr hlt
    have hg : Load k τ.sessions = none := S.gone (k, p) hm hi
    refine ⟨hg, ?_, ?_⟩
    · intro k1 h1
      have hm1 : (k1, p) ∈ σ.sessions := S.sub.subset (mem_of_Load k1 p _ h1)
      have hk : k1 = k := congrArg Prod.fst (hI.ptr_unique (k1, p) (k, p) hm1 hm rfl)
      rw [hk, hg] at h1
      cases h1
    · rw [S.heapHit (k, p) hm hi]
  · intro hle
    have hi : inactive now (σ.heap p) = false := (inactive_false_iff now _).mpr hle
    refine ⟨?_, S.heapKeep p (fun _ _ _ => hi), S.closes⟩
    rw [S.kept k ?_]
    · exact hin
    · intro e he hk
      have : e = (k, p) := by
        obtain ⟨k1, q1⟩ := e
        have hk1 : k1 = k := hk
        subst hk1
        have := Load_of_mem k1 q1 _ hI.nodup he
        rw [hin] at this
        cases this
        rfl
      rw [this]
      exact hi

/-- A sweep that finds the session of `alice` idle. -/
theorem C7_cleanupSessions_sweep_witness :
    Reachable backend oneSession ∧ oneSession.panicked = false ∧
    Load alice.String oneSession.sessions = some 0 ∧
    (late - (oneSession.heap 0).lastActive > fiveMinutes →
      Load alice.String (cleanupSessions late oneSession).sessions = none ∧
      (∀ k1, Load k1 (cleanupSessions late oneSession).sessions ≠ some 0) ∧
      ((cleanupSessions late oneSession).heap 0).closeChan = true) :=
  ⟨⟨_, rfl⟩, by decide, by decide,
    (C7_cleanupSessions_sweep backend oneSession late alice.String 0 ⟨_, rfl⟩
      (by decide) (by decide)).1⟩

/-! ## transparency -/

theorem mainRecv_data (datagram : List Byte) (σ : World) (hb : σ.buffer.length = 1500)
    (hn : datagram.length ≤ 1500) : (mainRecv datagram σ).1 = datagram := by
  unfold mainRecv
  exact readInto_take σ.buffer datagram (by rw [hb]; exact hn)

theorem pumpRecv_data (p : Nat) (reply : List Byte) (σ : World)
    (hb : (σ.pumpBuf p).length = 1500) (hn : reply.length ≤ 1500) :
    (pumpRecv p reply σ).1 = reply := by
  unfold pumpRecv
  exact readInto_take (σ.pumpBuf p) reply (by rw [hb]; exact hn)

theorem hcp_out (data : List Byte) (clientAddr serverAddr : UDPAddr)
    (listenOk writeOk : Bool) (now : Int) (σ : World) :
    (Load clientAddr.String σ.sessions = none ∧ listenOk = false ∧
      handleClientPacket data clientAddr serverAddr listenOk writeOk now σ = σ) ∨
    ∃ ok : Bool,
      (handleClientPacket data clientAddr serverAddr listenOk writeOk now σ).out
        = σ.out ++ [Packet.toServer
            ((handleClientPacket data clientAddr serverAddr listenOk writeOk now σ).heap
              (resolve clientAddr σ)).serverConn serverAddr data ok] := by
  cases hL : Load clientAddr.String σ.sessions with
  | some q =>
    right
    have hp : resolve clientAddr σ = q := by simp [resolve, hL]
    have F := forward_spec q data clientAddr serverAddr writeOk now σ
    rw [hp, hcp_some _ _ _ _ _ _ _ q hL, F.conn q]
    exact ⟨_, F.out⟩
  | none =>
    cases listenOk with
    | false => exact Or.inl ⟨rfl, rfl, hcp_none_fail _ _ _ _ _ _ hL⟩
    | true =>
      right
      have hp : resolve clientAddr σ = σ.nextPtr := by simp [resolve, hL]
      have F := forward_spec σ.nextPtr data clientAddr serverAddr writeOk now
        (created clientAddr now σ)
      rw [hp, hcp_none_ok _ _ _ _ _ _ hL, F.conn σ.nextPtr]
      exact ⟨_, F.out⟩

theorem pumpExit_out (p : Nat) (σ : World) : (pumpExit p σ).out = σ.out := by
  rw [pumpExit_eq]

/-- C3: a datagram of at most 1500 bytes read by `main` is copied out of
the read buffer unchanged, and the write `handleClientPacket` makes for it
(to the upstream socket of its session, addressed to the backend) carries
exactly those bytes, also when the buffer has been overwritten by a later
datagram before the handler runs; a reply of at most 1500 bytes read by
the reader goroutine of a session is written to the public socket,
addressed to the client address stored in the session, with exactly those
bytes. -/
theorem C3_transparency (serverAddr : UDPAddr) (σ : World) (hr : Reachable serverAddr σ) :
    (∀ (datagram later : List Byte) (clientAddr : UDPAddr) (listenOk writeOk : Bool)
        (now : Int), datagram.length ≤ 1500 →
      let r1 := mainRecv datagram σ
      let r2 := mainRecv later r1.2
      let τ := handleClientPacket r1.1 clientAddr serverAddr listenOk writeOk now r2.2
      r1.1 = datagram ∧
      ((Load clientAddr.String σ.sessions = none ∧ listenOk = false ∧ τ.out = σ.out) ∨
        ∃ ok : Bool, τ.out = σ.out ++ [Packet.toServer
          (τ.heap (resolve clientAddr σ)).serverConn serverAddr datagram ok])) ∧
    (∀ (p : Nat) (reply : List Byte) (r : ReadResult) (w : Bool) (now : Int),
      reply.length ≤ 1500 →
      readResult σ (σ.heap p).serverConn r = ReadResult.data reply →
      (pumpRead p r w now σ).out
        = σ.out ++ [Packet.toClient (σ.heap p).clientAddr reply w]) := by
  have hI := hr.inv
  constructor
  · intro datagram later clientAddr listenOk writeOk now hn r1 r2 τ
    have hd : r1.1 = datagram := mainRecv_data datagram σ hI.bufLen hn
    refine ⟨hd, ?_⟩
    have hres : resolve clientAddr r2.2 = resolve clientAddr σ := rfl
    have hout : r2.2.out = σ.out := rfl
    have hload : Load clientAddr.String r2.2.sessions = Load clientAddr.String σ.sessions := rfl
    rcases hcp_out r1.1 clientAddr serverAddr listenOk writeOk now r2.2 with h | h
    · left
      refine ⟨hload ▸ h.1, h.2.1, ?_⟩
      show (handleClientPacket r1.1 clientAddr serverAddr listenOk writeOk now r2.2).out = _
      rw [h.2.2]
      exact hout
    · right
      obtain ⟨ok, hok⟩ := h
      rw [hres, hout] at hok
      have hok2 : τ.out = σ.out ++ [Packet.toServer
          (τ.heap (resolve clientAddr σ)).serverConn serverAddr r1.1 ok] := hok
      rw [hd] at hok2
      exact ⟨ok, hok2⟩
  · intro p reply r w now hn hread
    unfold pumpRead
    simp only [hread]
    have hd : (pumpRecv p reply σ).1 = reply := pumpRecv_data p reply σ (hI.pumpBufLen p) hn
    cases w with
    | true =>
      simp only [if_true]
      show (pumpRecv p reply σ).2.out ++ _ = _
      rw [hd]
      rfl
    | false =>
      simp only [Bool.false_eq_true, if_false]
      rw [pumpExit_out]
      show (pumpRecv p reply σ).2.out ++ _ = _
      rw [hd]
      rfl

/-- A reply relayed to `alice`. -/
theorem C3_transparency_witness :
    Reachable backend blocked ∧
    (pumpRead 0 (ReadResult.data hello) true 1 blocked).out
      = blocked.out ++ [Packet.toClient (blocked.heap 0).clientAddr hello true] :=
  ⟨⟨_, rfl⟩,
    (C3_transparency backend blocked ⟨_, rfl⟩).2 0 hello (ReadResult.data hello) true 1
      (by decide) (by decide)⟩

/-! ## termination is not idempotent -/

/-- C1, evaluated: after a failed upstream write `handleClientPacket` has
closed the socket and `closeChan` of the session while its reader
goroutine is still running; when the reader reaches its `select` it
returns, and its deferred calls close `closeChan` a second time, which
panics, and call `Close` on the socket a second time. The same happens
when the sweep has closed `closeChan` of an idle session. -/
theorem C1_second_close_panics :
    ((run backend init writeFails).panicked = false ∧
      (run backend init writeFails).closes 0 = 1 ∧
      ((run backend init writeFails).heap 0).closeChan = true ∧
      (run backend init writeFails).pump 0 = PumpPC.atSelect) ∧
    ((run backend init (writeFails ++ [Action.select 0])).panicked = true ∧
      (run backend init (writeFails ++ [Action.select 0])).closes 0 = 2) ∧
    ((run backend oneSession [Action.tick late]).panicked = false ∧
      (run backend oneSession [Action.tick late, Action.select 0]).panicked = true) ∧
    (runSessionServerReader 0 [(ReadResult.timeout, true, 1)]
      (run backend init writeFails)).panicked = true := by
  refine ⟨⟨?_, ?_, ?_, ?_⟩, ⟨?_, ?_⟩, ⟨?_, ?_⟩, ?_⟩ <;> decide

/-- C9, evaluated: two handlers for first datagrams of the same new client
that both run `sessions.Load` before either runs `sessions.Store` create
two upstream sockets and two sessions, each with its reader goroutine; the
two datagrams leave through different sockets and only the second session
is in the table. -/
theorem C9_raced_first_packets :
    Load alice.String init.sessions = none ∧
    racedCreate.nextConn = 2 ∧ racedCreate.nextPtr = 2 ∧
    racedCreate.out = [Packet.toServer 0 backend hello true,
      Packet.toServer 1 backend again true] ∧
    racedCreate.sessions = [(alice.String, 1)] ∧
    racedCreate.pump 0 = PumpPC.atSelect ∧ racedCreate.pump 1 = PumpPC.atSelect := by
  refine ⟨?_, ?_, ?_, ?_, ?_, ?_, ?_⟩ <;> decide

/-- C5, evaluated: a reader goroutine that tears its session down deletes
whatever is stored under the key of that session. In the first schedule
session 0 has been torn down by a failed write while its reader was
blocked, session 1 of the same client is in the table, and the read error
of reader 0 removes session 1 from the table. In the second, session 0 was
orphaned by a raced creation, session 1 of the same client is in use, and
the idle timeout of reader 0 removes session 1 from the table, without any
panic; session 1 keeps its open socket and its running reader. -/
theorem C5_stale_reader_deletes_other_session :
    (Load alice.String (run backend init staleReader).sessions = some 1 ∧
      (run backend init staleReader).pump 0 = PumpPC.inRead ∧
      Load alice.String (run backend init
        (staleReader ++ [Action.read 0 ReadResult.timeout true 3])).sessions = none) ∧
    (Load alice.String
        (run backend racedCreate [Action.packet hello alice true true (late - 1)]).sessions
        = some 1 ∧
      (run backend racedCreate [Action.packet hello alice true true (late - 1), Action.select 0,
        Action.read 0 ReadResult.timeout true late]).sessions = [] ∧
      (run backend racedCreate [Action.packet hello alice true true (late - 1), Action.select 0,
        Action.read 0 ReadResult.timeout true late]).panicked = false ∧
      ((run backend racedCreate [Action.packet hello alice true true (late - 1), Action.select 0,
        Action.read 0 ReadResult.timeout true late]).heap 1).lastActive = late - 1 ∧
      (run backend racedCreate [Action.packet hello alice true true (late - 1), Action.select 0,
        Action.read 0 ReadResult.timeout true late]).closes 1 = 0 ∧
      (run backend racedCreate [Action.packet hello alice true true (late - 1), Action.select 0,
        Action.read 0 ReadResult.timeout true late]).pump 1 = PumpPC.atSelect) := by
  refine ⟨⟨?_, ?_, ?_⟩, ?_, ?_, ?_, ?_, ?_, ?_⟩ <;> decide

/-! ## who closes a socket -/

theorem reapEntry_closes (now : Int) (σ : World) (e : Key × Nat) :
    (reapEntry now σ e).closes = σ.closes := by
  unfold reapEntry
  split
  · rfl
  · split
    · rw [closeChannel_eq]
      rfl
    · rfl

theorem sweep_closes (now : Int) (l : List (Key × Nat)) :
    ∀ σ : World, (l.foldl (reapEntry now) σ).closes = σ.closes := by
  induction l with
  | nil => intro σ; rfl
  | cons e l ih =>
    intro σ
    rw [List.foldl_cons, ih, reapEntry_closes]

theorem pumpExit_closes (p : Nat) (σ : World) (c : Nat) (hc : c ≠ (σ.heap p).serverConn) :
    (pumpExit p σ).closes c = σ.closes c := by
  rw [pumpExit_eq]
  simp [setAt, hc]

theorem hcp_closes (data : List Byte) (clientAddr serverAddr : UDPAddr)
    (listenOk writeOk : Bool) (now : Int) (σ : World) (c : Nat)
    (h0 : σ.closes c = 0)
    (h1 : (handleClientPacket data clientAddr serverAddr listenOk writeOk now σ).closes c ≠ 0) :
    c = ((handleClientPacket data clientAddr serverAddr listenOk writeOk now σ).heap
      (resolve clientAddr σ)).serverConn ∧
    (handleClientPacket data clientAddr serverAddr listenOk writeOk now σ).out
      = σ.out ++ [Packet.toServer c serverAddr data false] := by
  cases hL : Load clientAddr.String σ.sessions with
  | some q =>
    have hp : resolve clientAddr σ = q := by simp [resolve, hL]
    have F := forward_spec q data clientAddr serverAddr writeOk now σ
    rw [hcp_some _ _ _ _ _ _ _ q hL] at h1 ⊢
    rw [hp, F.conn q]
    have hc : c = (σ.heap q).serverConn := by
      by_contra hne
      exact h1 ((F.closesOther c hne).trans h0)
    refine ⟨hc, ?_⟩
    cases hw : writeResult σ (σ.heap q).serverConn writeOk with
    | true =>
      rw [F.okCloses hw] at h1
      exact absurd h0 h1
    | false =>
      rw [F.out, hw, hc]
  | none =>
    cases listenOk with
    | false =>
      rw [hcp_none_fail _ _ _ _ _ _ hL] at h1
      exact absurd h0 h1
    | true =>
      have hp : resolve clientAddr σ = σ.nextPtr := by simp [resolve, hL]
      have F := forward_spec σ.nextPtr data clientAddr serverAddr writeOk now
        (created clientAddr now σ)
      have hconn : ((created clientAddr now σ).heap σ.nextPtr).serverConn = σ.nextConn := by
        rw [created_heap_new]
      rw [hcp_none_ok _ _ _ _ _ _ hL] at h1 ⊢
      rw [hp, F.conn σ.nextPtr, hconn]
      have hc : c = σ.nextConn := by
        by_contra hne
        apply h1
        rw [F.closesOther c (by rw [hconn]; exact hne), created_closes_old _ _ _ _ hne]
        exact h0
      refine ⟨hc, ?_⟩
      cases hw : writeResult (created clientAddr now σ)
          ((created clientAddr now σ).heap σ.nextPtr).serverConn writeOk with
      | true =>
        rw [F.okCloses hw, hc, created_closes_new] at h1
        exact absurd rfl h1
      | false =>
        rw [F.out, hw, hc, hconn, created_out]

/-- C10, as stated, fails: with the session of `alice` in the table and its
socket open, a `handleClientPacket` whose upstream write fails leaves that
socket closed, while the reader goroutine of the session has not moved. -/
theorem C10_ingress_closes_socket :
    Load alice.String oneSession.sessions = some 0 ∧
    (oneSession.heap 0).serverConn = 0 ∧
    oneSession.closes 0 = 0 ∧
    oneSession.pump 0 = PumpPC.atSelect ∧
    (handleClientPacket again alice backend true false 1 oneSession).closes 0 = 1 ∧
    (handleClientPacket again alice backend true false 1 oneSession).pump 0
      = PumpPC.atSelect := by
  refine ⟨?_, ?_, ?_, ?_, ?_, ?_⟩ <;> decide

/-- C10, amended: a sweep of `cleanupSessions` changes no socket; a
`handleClientPacket` that turns a socket from open to closed is one whose
upstream write failed, and the socket is the one it wrote to, that of the
session the datagram resolved to; a step of the reader goroutine of
session `p` changes no socket but the one of session `p`. -/
theorem C10_who_closes_sockets (serverAddr : UDPAddr) (σ : World) :
    (∀ now : Int, (cleanupSessions now σ).closes = σ.closes) ∧
    (∀ (data : List Byte) (clientAddr : UDPAddr) (listenOk writeOk : Bool) (now : Int)
        (c : Nat), σ.closes c = 0 →
      (handleClientPacket data clientAddr serverAddr listenOk writeOk now σ).closes c ≠ 0 →
      c = ((handleClientPacket data clientAddr serverAddr listenOk writeOk now σ).heap
        (resolve clientAddr σ)).serverConn ∧
      (handleClientPacket data clientAddr serverAddr listenOk writeOk now σ).out
        = σ.out ++ [Packet.toServer c serverAddr data false]) ∧
    (∀ p c : Nat, c ≠ (σ.heap p).serverConn → (pumpSelect p σ).closes c = σ.closes c) ∧
    (∀ (p : Nat) (r : ReadResult) (w : Bool) (now : Int) (c : Nat),
      c ≠ (σ.heap p).serverConn → (pumpRead p r w now σ).closes c = σ.closes c) := by
  refine ⟨?_, ?_, ?_, ?_⟩
  · intro now
    exact sweep_closes now σ.sessions σ
  · intro data clientAddr listenOk writeOk now c h0 h1
    exact hcp_closes data clientAddr serverAddr listenOk writeOk now σ c h0 h1
  · intro p c hc
    unfold pumpSelect
    split
    · exact pumpExit_closes p σ c hc
    · rfl
  · intro p r w now c hc
    unfold pumpRead
    simp only
    split
    · split
      · exact pumpExit_closes p _ c hc
      · rfl
    · exact pumpExit_closes p _ c hc
    · split
      · rfl
      · exact pumpExit_closes p _ c hc

/-! ## a fresh session after a teardown -/

set_option maxRecDepth 100000 in
/-- C8, as stated, fails: after the session of `alice` has been torn down,
a datagram of `alice` for which no socket can be allocated creates no
session and is not forwarded; and one whose upstream write fails leaves no
session in the table and the `closeChan` of the session it created
closed. -/
theorem C8_no_socket_no_session :
    (Load alice.String tornDown.sessions = none ∧ tornDown.pump 0 = PumpPC.done ∧
      tornDown.panicked = false ∧ tornDown.nextPtr = 1) ∧
    ((handleClientPacket again alice backend false true late tornDown).sessions = [] ∧
      (handleClientPacket again alice backend false true late tornDown).nextPtr = 1 ∧
      (handleClientPacket again alice backend false true late tornDown).out = tornDown.out) ∧
    ((handleClientPacket again alice backend true false late tornDown).sessions = [] ∧
      ((handleClientPacket again alice backend true false late tornDown).heap 1).closeChan
        = true) := by
  refine ⟨⟨?_, ?_, ?_, ?_⟩, ⟨?_, ?_, ?_⟩, ?_, ?_⟩ <;> decide

/-- C8, amended: for a client with no entry in the table (its session has
been torn down), the next datagram handled by `handleClientPacket` does
one of two things. When the socket allocation fails, no session is
created and the datagram is dropped: the state is unchanged. When it
succeeds, the call creates a session object that did not exist before,
with a socket that no session allocated before has, and starts its reader
goroutine; the datagram is written to that socket; and when that write
succeeds, the session is stored under the key of the client at the end of
the call, its socket and `closeChan` open. -/
theorem C8_fresh_session (serverAddr : UDPAddr) (σ : World) (data : List Byte)
    (clientAddr : UDPAddr) (listenOk writeOk : Bool) (now : Int)
    (hr : Reachable serverAddr σ)
    (hgone : Load clientAddr.String σ.sessions = none) :
    let τ := handleClientPacket data clientAddr serverAddr listenOk writeOk now σ
    (listenOk = false → τ = σ) ∧
    (listenOk = true →
      (∀ q, q < σ.nextPtr → q ≠ σ.nextPtr ∧ (σ.heap q).serverConn ≠ σ.nextConn ∧
        (τ.heap q).serverConn ≠ σ.nextConn) ∧
      (∀ k, Load k σ.sessions ≠ some σ.nextPtr) ∧
      σ.pump σ.nextPtr = PumpPC.done ∧ τ.pump σ.nextPtr = PumpPC.atSelect ∧
      (τ.heap σ.nextPtr).serverConn = σ.nextConn ∧
      (τ.heap σ.nextPtr).clientAddr = clientAddr ∧
      (τ.heap σ.nextPtr).lastActive = now ∧
      τ.out = σ.out ++ [Packet.toServer σ.nextConn serverAddr data writeOk] ∧
      (writeOk = true →
        Load clientAddr.String τ.sessions = some σ.nextPtr ∧
        τ.heap σ.nextPtr = ⟨σ.nextConn, clientAddr, now, false⟩ ∧
        τ.closes σ.nextConn = 0)) := by
  intro τ
  have hI := hr.inv
  constructor
  · intro hl
    show handleClientPacket data clientAddr serverAddr listenOk writeOk now σ = σ
    rw [hl]
    exact hcp_none_fail _ _ _ _ _ _ hgone
  intro hl
  have hτ : τ = forward σ.nextPtr data clientAddr serverAddr writeOk now
      (created clientAddr now σ) := by
    show handleClientPacket data clientAddr serverAddr listenOk writeOk now σ = _
    rw [hl]
    exact hcp_none_ok _ _ _ _ _ _ hgone
  have hconn : ((created clientAddr now σ).heap σ.nextPtr).serverConn = σ.nextConn := by
    rw [created_heap_new]
  have hok : writeResult (created clientAddr now σ)
      ((created clientAddr now σ).heap σ.nextPtr).serverConn writeOk = writeOk := by
    apply writeResult_open
    rw [hconn]
    exact created_closes_new _ _ _
  have F := forward_spec σ.nextPtr data clientAddr serverAddr writeOk now
    (created clientAddr now σ)
  rw [hok] at F
  rw [hτ]
  have h1 := F.conn σ.nextPtr
  have h2 := F.addr σ.nextPtr
  have h3 := F.last
  rw [created_heap_new] at h1 h2
  refine ⟨?_, ?_, ?_, ?_, h1, h2, h3, ?_, ?_⟩
  · intro q hq
    have hlt := hI.connLt q hq
    refine ⟨Nat.ne_of_lt hq, Nat.ne_of_lt hlt, ?_⟩
    rw [F.conn q, created_heap_old _ _ _ _ (Nat.ne_of_lt hq)]
    exact Nat.ne_of_lt hlt
  · intro k hk
    have := (hI.stored k σ.nextPtr (mem_of_Load _ _ _ hk)).1
    exact Nat.lt_irrefl _ this
  · by_contra hne
    exact Nat.lt_irrefl _ (hI.pumpLt σ.nextPtr hne)
  · rw [F.pump]
    simp [created, newSession, setAt]
  · rw [F.out, hconn, created_out]
  · intro hw
    refine ⟨?_, ?_, ?_⟩
    · rw [F.okSessions hw, created_sessions]
      exact Load_Store_self _ _ _
    · have h4 := F.okChan hw
      rw [created_heap_new] at h4
      cases hh : (forward σ.nextPtr data clientAddr serverAddr writeOk now
        (created clientAddr now σ)).heap σ.nextPtr with
      | mk a b c d =>
        rw [hh] at h1 h2 h3 h4
        simp only at h1 h2 h3 h4
        rw [h1, h2, h3, h4]
    · rw [F.okCloses hw]
      exact created_closes_new _ _ _

/-- After the teardown of the first session of `alice`: a datagram for
which no socket can be allocated leaves the state as it is, and one for
which the allocation and the write succeed gets a new session, stored
under her key, with a started reader. -/
theorem C8_fresh_session_witness :
    Reachable backend tornDown ∧ Load alice.String tornDown.sessions = none ∧
    handleClientPacket again alice backend false true late tornDown = tornDown ∧
    (handleClientPacket again alice backend true true late tornDown).pump tornDown.nextPtr
      = PumpPC.atSelect ∧
    Load alice.String
      (handleClientPacket again alice backend true true late tornDown).sessions
      = some tornDown.nextPtr ∧
    (handleClientPacket again alice backend true true late tornDown).heap tornDown.nextPtr
      = ⟨tornDown.nextConn, alice, late, false⟩ ∧
    (handleClientPacket again alice backend true true late tornDown).closes
      tornDown.nextConn = 0 :=
  ⟨⟨_, rfl⟩, by decide,
    (C8_fresh_session backend tornDown again alice false true late ⟨_, rfl⟩
      (by decide)).1 rfl,
    ((C8_fresh_session backend tornDown again alice true true late ⟨_, rfl⟩
      (by decide)).2 rfl).2.2.2.1,
    ((C8_fresh_session backend tornDown again alice true true late ⟨_, rfl⟩
      (by decide)).2 rfl).2.2.2.2.2.2.2.2 rfl⟩

/-! ## session identity -/

theorem hcp_same_key (data : List Byte) (clientAddr serverAddr : UDPAddr)
    (listenOk writeOk : Bool) (now : Int) (σ : World) (s : Nat)
    (hL : Load clientAddr.String σ.sessions = some s) :
    resolve clientAddr σ = s ∧
    (handleClientPacket data clientAddr serverAddr listenOk writeOk now σ).nextConn
      = σ.nextConn ∧
    (handleClientPacket data clientAddr serverAddr listenOk writeOk now σ).nextPtr
      = σ.nextPtr ∧
    ∃ ok : Bool,
      (handleClientPacket data clientAddr serverAddr listenOk writeOk now σ).out
        = σ.out ++ [Packet.toServer (σ.heap s).serverConn serverAddr data ok] := by
  have F := forward_spec s data clientAddr serverAddr writeOk now σ
  rw [hcp_some _ _ _ _ _ _ _ s hL]
  exact ⟨by simp [resolve, hL], F.nextConn, F.nextPtr, _, F.out⟩

theorem hcp_other_key (data : List Byte) (clientAddr serverAddr : UDPAddr)
    (listenOk writeOk : Bool) (now : Int) (σ : World) (hI : Inv σ) (k1 : Key) (s1 : Nat)
    (hL : Load k1 σ.sessions = some s1) (hne : clientAddr.String ≠ k1) :
    (Load k1 (handleClientPacket data clientAddr serverAddr listenOk writeOk now σ).sessions
        = some s1 ∧
      (handleClientPacket data clientAddr serverAddr listenOk writeOk now σ).heap s1
        = σ.heap s1 ∧
      (handleClientPacket data clientAddr serverAddr listenOk writeOk now σ).closes
        (σ.heap s1).serverConn = σ.closes (σ.heap s1).serverConn) ∧
    ((Load clientAddr.String σ.sessions = none ∧ listenOk = false ∧
        handleClientPacket data clientAddr serverAddr listenOk writeOk now σ = σ) ∨
      (resolve clientAddr σ ≠ s1 ∧
        ((handleClientPacket data clientAddr serverAddr listenOk writeOk now σ).heap
          (resolve clientAddr σ)).serverConn ≠ (σ.heap s1).serverConn ∧
        ∃ ok : Bool,
          (handleClientPacket data clientAddr serverAddr listenOk writeOk now σ).out
            = σ.out ++ [Packet.toServer
              ((handleClientPacket data clientAddr serverAddr listenOk writeOk now σ).heap
                (resolve clientAddr σ)).serverConn serverAddr data ok])) := by
  have hst := hI.stored k1 s1 (mem_of_Load _ _ _ hL)
  have hk : k1 ≠ clientAddr.String := fun h => hne h.symm
  cases hL2 : Load clientAddr.String σ.sessions with
  | some q =>
    have hp : resolve clientAddr σ = q := by simp [resolve, hL2]
    have hsq := hI.stored _ q (mem_of_Load _ _ _ hL2)
    have hqs : q ≠ s1 := by
      intro h
      rw [h] at hsq
      exact hne (hsq.2.1.symm.trans hst.2.1)
    have hcq : (σ.heap q).serverConn ≠ (σ.heap s1).serverConn :=
      fun h => hqs (hI.connInj q s1 hsq.1 hst.1 h)
    have F := forward_spec q data clientAddr serverAddr writeOk now σ
    rw [hcp_some _ _ _ _ _ _ _ q hL2, hp]
    refine ⟨⟨?_, F.heapOther s1 (fun h => hqs h.symm), F.closesOther _ (fun h => hcq h.symm)⟩,
      Or.inr ⟨hqs, ?_, writeResult σ (σ.heap q).serverConn writeOk, ?_⟩⟩
    · rw [F.loadOther k1 hk]
      exact hL
    · rw [F.conn q]
      exact hcq
    · rw [F.conn q]
      exact F.out
  | none =>
    cases listenOk with
    | false =>
      rw [hcp_none_fail _ _ _ _ _ _ hL2]
      exact ⟨⟨hL, rfl, rfl⟩, Or.inl ⟨rfl, rfl, rfl⟩⟩
    | true =>
      have hp : resolve clientAddr σ = σ.nextPtr := by simp [resolve, hL2]
      have hps : σ.nextPtr ≠ s1 := fun h => Nat.lt_irrefl _ (h ▸ hst.1)
      have hconn : ((created clientAddr now σ).heap σ.nextPtr).serverConn = σ.nextConn := by
        rw [created_heap_new]
      have hcs : (σ.heap s1).serverConn ≠ σ.nextConn := Nat.ne_of_lt (hI.connLt s1 hst.1)
      have F := forward_spec σ.nextPtr data clientAddr serverAddr writeOk now
        (created clientAddr now σ)
      rw [hcp_none_ok _ _ _ _ _ _ hL2, hp]
      refine ⟨⟨?_, ?_, ?_⟩, Or.inr ⟨hps, ?_, writeResult (created clientAddr now σ)
        ((created clientAddr now σ).heap σ.nextPtr).serverConn writeOk, ?_⟩⟩
      · rw [F.loadOther k1 hk, created_sessions, Load_Store_ne _ _ _ _ hk]
        exact hL
      · rw [F.heapOther s1 (fun h => hps h.symm),
          created_heap_old _ _ _ _ (fun h => hps h.symm)]
      · rw [F.closesOther _ (by rw [hconn]; exact hcs), created_closes_old _ _ _ _ hcs]
      · rw [F.conn σ.nextPtr, hconn]
        exact fun h => hcs h.symm
      · rw [F.conn σ.nextPtr, F.out, created_out]

set_option maxRecDepth 100000 in
/-- C2, as stated, fails: after a datagram of `alice` has been forwarded, a
datagram from the same IP and another port for which no socket can be
allocated gets no session at all, and is not forwarded. -/
theorem C2_no_socket_no_session :
    alice2.IP = alice.IP ∧ alice2.Port ≠ alice.Port ∧
    Load alice.String oneSession.sessions = some 0 ∧
    oneSession.out = [Packet.toServer 0 backend hello true] ∧
    Load alice2.String
      (handleClientPacket again alice2 backend false true 1 oneSession).sessions = none ∧
    (handleClientPacket again alice2 backend false true 1 oneSession).nextPtr = 1 ∧
    (handleClientPacket again alice2 backend false true 1 oneSession).nextConn = 1 ∧
    (handleClientPacket again alice2 backend false true 1 oneSession).out
      = oneSession.out := by
  refine ⟨?_, ?_, ?_, ?_, ?_, ?_, ?_, ?_⟩ <;> decide

/-- C2, amended: let a first datagram be forwarded with success through
session `s1` on socket `c1`, and a second datagram be handled right after.
With the same IP and port, the second resolves to `s1`, no socket and no
session is allocated, and it is written to `c1`. With another port, the
first session is still stored under its key, unchanged, its socket
untouched, and the second datagram is either dropped because it has no
session yet and no socket could be allocated, or written to the socket of
a session that is not `s1`, a socket that is not `c1`. -/
theorem C2_session_identity (serverAddr : UDPAddr) (σ : World)
    (d1 d2 : List Byte) (a1 a2 : UDPAddr) (l1 w1 l2 w2 : Bool) (t1 t2 : Int) (c1 : Nat)
    (hr : Reachable serverAddr σ)
    (h1 : (handleClientPacket d1 a1 serverAddr l1 w1 t1 σ).out
        = σ.out ++ [Packet.toServer c1 serverAddr d1 true]) :
    let σ1 := handleClientPacket d1 a1 serverAddr l1 w1 t1 σ
    let s1 := resolve a1 σ
    let σ2 := handleClientPacket d2 a2 serverAddr l2 w2 t2 σ1
    let s2 := resolve a2 σ1
    (Load a1.String σ1.sessions = some s1 ∧ (σ1.heap s1).serverConn = c1) ∧
    (a2.IP = a1.IP → a2.Port = a1.Port →
      s2 = s1 ∧ σ2.nextConn = σ1.nextConn ∧ σ2.nextPtr = σ1.nextPtr ∧
      ∃ ok : Bool, σ2.out = σ1.out ++ [Packet.toServer c1 serverAddr d2 ok]) ∧
    (a2.Port ≠ a1.Port →
      (Load a1.String σ2.sessions = some s1 ∧ σ2.heap s1 = σ1.heap s1 ∧
        σ2.closes c1 = σ1.closes c1) ∧
      ((Load a2.String σ1.sessions = none ∧ l2 = false ∧ σ2 = σ1) ∨
        (s2 ≠ s1 ∧ (σ2.heap s2).serverConn ≠ c1 ∧
          ∃ ok : Bool, σ2.out = σ1.out ++
            [Packet.toServer (σ2.heap s2).serverConn serverAddr d2 ok]))) := by
  intro σ1 s1 σ2 s2
  have hI := hr.inv
  have hs : Load a1.String σ.sessions ≠ none ∨ l1 = true := by
    by_contra hcon
    rw [not_or] at hcon
    have hL : Load a1.String σ.sessions = none := not_not.mp hcon.1
    have hl : l1 = false := by simpa using hcon.2
    rw [hl, hcp_none_fail _ _ _ _ _ _ hL] at h1
    have := congrArg List.length h1
    simp at this
  obtain ⟨hout, _, hsucc⟩ := hcp_outcome serverAddr σ d1 a1 l1 w1 t1 hI hs
  have heq := List.append_cancel_left (hout.symm.trans h1)
  simp only [List.cons.injEq, Packet.toServer.injEq, and_true, true_and] at heq
  obtain ⟨hc, hok⟩ := heq
  have hL1 : Load a1.String σ1.sessions = some s1 := (hsucc hok).1
  have hc1 : (σ1.heap s1).serverConn = c1 := hc
  have hI1 : Inv σ1 := Inv_handleClientPacket _ _ _ _ _ _ _ hI
  refine ⟨⟨hL1, hc1⟩, ?_, ?_⟩
  · intro hip hport
    have hkey : a2.String = a1.String := by
      unfold UDPAddr.String
      rw [hip, hport]
    have hL2 : Load a2.String σ1.sessions = some s1 := by rw [hkey]; exact hL1
    have H := hcp_same_key d2 a2 serverAddr l2 w2 t2 σ1 s1 hL2
    rw [hc1] at H
    exact H
  · intro hport
    have hkey : a2.String ≠ a1.String := fun h => hport (congrArg Prod.snd h)
    have H := hcp_other_key d2 a2 serverAddr l2 w2 t2 σ1 hI1 a1.String s1 hL1 hkey
    rw [hc1] at H
    exact H

set_option maxRecDepth 100000 in
/-- Two datagrams of `alice`, one after the other. -/
theorem C2_session_identity_witness :
    Reachable backend init ∧
    (handleClientPacket hello alice backend true true 0 init).out
      = init.out ++ [Packet.toServer 0 backend hello true] ∧
    (alice.IP = alice.IP → alice.Port = alice.Port →
      resolve alice (handleClientPacket hello alice backend true true 0 init)
        = resolve alice init ∧
      (handleClientPacket again alice backend true true 1
          (handleClientPacket hello alice backend true true 0 init)).nextConn
        = (handleClientPacket hello alice backend true true 0 init).nextConn ∧
      (handleClientPacket again alice backend true true 1
          (handleClientPacket hello alice backend true true 0 init)).nextPtr
        = (handleClientPacket hello alice backend true true 0 init).nextPtr ∧
      ∃ ok : Bool,
        (handleClientPacket again alice backend true true 1
          (handleClientPacket hello alice backend true true 0 init)).out
        = (handleClientPacket hello alice backend true true 0 init).out
          ++ [Packet.toServer 0 backend again ok]) :=
  ⟨⟨[], rfl⟩, by decide,
    (C2_session_identity backend init hello again alice alice true true true true 0 1 0
      ⟨[], rfl⟩ (by decide)).2.1⟩

end TsProxy
